import Mathlib

/-!
Verification of the dino-Backend wallet service core against its
natural-language specification.

The development shallowly embeds the TypeScript sources:
  * `src/services/concurrency-controls.ts`  (wallet-id ordering, lock keys,
    optimistic-update assertion)
  * `src/services/idempotency-cache.ts`     (distributed wallet lock)
  * `src/services/wallet-service.ts`        (mutation engine, balance query)
  * `src/utils/request-fingerprint.ts`      (canonical JSON fingerprint)
  * `src/middleware/idempotency.ts`         (fingerprint over the raw body)
  * the relational schema of `prisma/migrations`.

JavaScript `Array.prototype.sort(cmp)` with a comparator that never declares
two distinct elements equal is order-deterministic, so it is modelled by
insertion sort.  `String.prototype.localeCompare` (no arguments) is modelled
by the ICU root collation restricted to the character repertoire the service
exercises: a case-insensitive primary level, a case (tertiary) level, and a
final raw code-point tie-break that makes the model a total order.
-/

namespace DinoBackend

/-! ## Generic comparators -/

/-- Lawfulness of a three-way comparator: oriented, transitive on `lt`, and
`eq` acts as substitution on the left argument. -/
structure IsLawfulCmp {α : Type} (c : α → α → Ordering) : Prop where
  swap_eq : ∀ a b, c a b = (c b a).swap
  lt_trans : ∀ {a b d}, c a b = .lt → c b d = .lt → c a d = .lt
  eq_subst : ∀ {a b}, c a b = .eq → ∀ d, c b d = c a d

theorem IsLawfulCmp.refl_eq {α : Type} {c : α → α → Ordering} (h : IsLawfulCmp c)
    (a : α) : c a a = .eq := by
  have hs := h.swap_eq a a
  cases hc : c a a with
  | eq => rfl
  | lt => rw [hc] at hs; simp [Ordering.swap] at hs
  | gt => rw [hc] at hs; simp [Ordering.swap] at hs

theorem IsLawfulCmp.eq_symm {α : Type} {c : α → α → Ordering} (h : IsLawfulCmp c)
    {a b : α} (hab : c a b = .eq) : c b a = .eq := by
  rw [h.swap_eq b a, hab]
  rfl

theorem IsLawfulCmp.eq_subst_right {α : Type} {c : α → α → Ordering} (h : IsLawfulCmp c)
    {b d : α} (hbd : c b d = .eq) (a : α) : c a b = c a d := by
  rw [h.swap_eq a b, h.swap_eq a d, h.eq_subst (h.eq_symm hbd) a]

/-- Not-greater transitivity, the property insertion sort needs. -/
theorem IsLawfulCmp.le_trans {α : Type} {c : α → α → Ordering} (h : IsLawfulCmp c)
    {a b d : α} (hab : c a b ≠ .gt) (hbd : c b d ≠ .gt) : c a d ≠ .gt := by
  cases h1 : c a b with
  | gt => exact absurd h1 hab
  | eq => rw [h.eq_subst h1 d] at hbd; exact hbd
  | lt =>
    cases h2 : c b d with
    | gt => exact absurd h2 hbd
    | eq => rw [← h.eq_subst_right h2 a, h1]; simp
    | lt => rw [h.lt_trans h1 h2]; simp

theorem IsLawfulCmp.le_total {α : Type} {c : α → α → Ordering} (h : IsLawfulCmp c)
    (a b : α) : c a b ≠ .gt ∨ c b a ≠ .gt := by
  cases h1 : c a b with
  | lt => left; simp
  | eq => left; simp
  | gt =>
    right
    intro h2
    have hs := h.swap_eq a b
    rw [h1, h2] at hs
    simp [Ordering.swap] at hs

theorem ordThen_eq_eq {o₁ o₂ : Ordering} :
    o₁.then o₂ = .eq ↔ o₁ = .eq ∧ o₂ = .eq := by
  cases o₁ <;> cases o₂ <;> simp [Ordering.then]

/-- Sequential composition of two comparators on the same arguments. -/
def cmpThen {α : Type} (c₁ c₂ : α → α → Ordering) (a b : α) : Ordering :=
  (c₁ a b).then (c₂ a b)

theorem cmpThen_lawful {α : Type} {c₁ c₂ : α → α → Ordering}
    (h₁ : IsLawfulCmp c₁) (h₂ : IsLawfulCmp c₂) : IsLawfulCmp (cmpThen c₁ c₂) := by
  constructor
  · intro a b
    unfold cmpThen
    rw [h₁.swap_eq a b, h₂.swap_eq a b]
    cases c₁ b a <;> cases c₂ b a <;> rfl
  · intro a b d hab hbd
    unfold cmpThen at *
    cases g1 : c₁ a b <;> rw [g1] at hab <;> simp [Ordering.then] at hab
    · -- c₁ a b = .lt
      cases g2 : c₁ b d <;> rw [g2] at hbd <;> simp [Ordering.then] at hbd
      · rw [h₁.lt_trans g1 g2]; rfl
      · have g3 : c₁ a b = c₁ a d := h₁.eq_subst_right g2 a
        rw [g1] at g3
        rw [← g3]
        rfl
    · -- c₁ a b = .eq
      cases g2 : c₁ b d <;> rw [g2] at hbd <;> simp [Ordering.then] at hbd
      · have g3 : c₁ b d = c₁ a d := h₁.eq_subst g1 d
        rw [g2] at g3
        rw [← g3]
        rfl
      · have g3 : c₁ b d = c₁ a d := h₁.eq_subst g1 d
        rw [g2] at g3
        rw [← g3, h₂.lt_trans hab hbd]
        rfl
  · intro a b hab d
    unfold cmpThen at *
    rw [ordThen_eq_eq] at hab
    rw [h₁.eq_subst hab.1 d, h₂.eq_subst hab.2 d]

/-! ## Character and list comparators -/

/-- Comparator on characters induced by a numeric key. -/
def cmpKey (f : Char → Nat) (a b : Char) : Ordering :=
  compare (f a) (f b)

theorem cmpKey_lawful (f : Char → Nat) : IsLawfulCmp (cmpKey f) := by
  constructor
  · intro a b
    exact (Nat.compare_swap (f b) (f a)).symm
  · intro a b d hab hbd
    unfold cmpKey at hab hbd ⊢
    rw [Nat.compare_eq_lt] at hab hbd ⊢
    exact Nat.lt_trans hab hbd
  · intro a b hab d
    unfold cmpKey at hab ⊢
    rw [Nat.compare_eq_eq] at hab
    rw [hab]

/-- Lawfulness survives pulling a comparator back along a key function. -/
theorem comap_lawful {α β : Type} {c : α → α → Ordering} (g : β → α)
    (h : IsLawfulCmp c) : IsLawfulCmp (fun x y => c (g x) (g y)) := by
  constructor
  · intro a b; exact h.swap_eq (g a) (g b)
  · intro a b d hab hbd; exact h.lt_trans hab hbd
  · intro a b hab d; exact h.eq_subst hab (g d)

/-- Lexicographic comparison of character lists under a character comparator. -/
def lexCmp (cmp : Char → Char → Ordering) : List Char → List Char → Ordering
  | [], [] => .eq
  | [], _ :: _ => .lt
  | _ :: _, [] => .gt
  | a :: as, b :: bs => (cmp a b).then (lexCmp cmp as bs)

theorem lexCmp_swap {cmp : Char → Char → Ordering} (hc : IsLawfulCmp cmp) :
    ∀ as bs, lexCmp cmp as bs = (lexCmp cmp bs as).swap
  | [], [] => rfl
  | [], _ :: _ => rfl
  | _ :: _, [] => rfl
  | a :: as, b :: bs => by
    simp only [lexCmp]
    rw [hc.swap_eq a b, lexCmp_swap hc as bs]
    cases cmp b a <;> cases lexCmp cmp bs as <;> rfl

theorem lexCmp_lt_trans {cmp : Char → Char → Ordering} (hc : IsLawfulCmp cmp) :
    ∀ as bs ds, lexCmp cmp as bs = .lt → lexCmp cmp bs ds = .lt →
      lexCmp cmp as ds = .lt
  | [], [], _, h1, _ => by simp [lexCmp] at h1
  | [], _ :: _, [], _, h2 => by simp [lexCmp] at h2
  | [], _ :: _, _ :: _, _, _ => rfl
  | _ :: _, [], _, h1, _ => by simp [lexCmp] at h1
  | _ :: _, _ :: _, [], _, h2 => by simp [lexCmp] at h2
  | a :: as, b :: bs, d :: ds, h1, h2 => by
    simp only [lexCmp] at h1 h2 ⊢
    cases g1 : cmp a b <;> rw [g1] at h1 <;> simp [Ordering.then] at h1
    · cases g2 : cmp b d <;> rw [g2] at h2 <;> simp [Ordering.then] at h2
      · rw [hc.lt_trans g1 g2]; rfl
      · have g3 : cmp a b = cmp a d := hc.eq_subst_right g2 a
        rw [g1] at g3; rw [← g3]; rfl
    · cases g2 : cmp b d <;> rw [g2] at h2 <;> simp [Ordering.then] at h2
      · have g3 : cmp b d = cmp a d := hc.eq_subst g1 d
        rw [g2] at g3; rw [← g3]; rfl
      · have g3 : cmp b d = cmp a d := hc.eq_subst g1 d
        rw [g2] at g3
        rw [← g3, lexCmp_lt_trans hc as bs ds h1 h2]
        rfl

theorem lexCmp_eq_subst {cmp : Char → Char → Ordering} (hc : IsLawfulCmp cmp) :
    ∀ as bs, lexCmp cmp as bs = .eq → ∀ ds, lexCmp cmp bs ds = lexCmp cmp as ds
  | [], [], _, _ => rfl
  | [], _ :: _, h, _ => by simp [lexCmp] at h
  | _ :: _, [], h, _ => by simp [lexCmp] at h
  | a :: as, b :: bs, h, ds => by
    simp only [lexCmp, ordThen_eq_eq] at h
    cases ds with
    | nil => rfl
    | cons d ds =>
      simp only [lexCmp]
      rw [hc.eq_subst h.1 d, lexCmp_eq_subst hc as bs h.2 ds]

theorem lexCmp_lawful {cmp : Char → Char → Ordering} (hc : IsLawfulCmp cmp) :
    IsLawfulCmp (lexCmp cmp) :=
  ⟨lexCmp_swap hc, fun {as bs ds} => lexCmp_lt_trans hc as bs ds,
    fun {as bs} => lexCmp_eq_subst hc as bs⟩

theorem lexCmp_eq_iff_of_inj {cmp : Char → Char → Ordering}
    (hinj : ∀ a b, cmp a b = .eq ↔ a = b) :
    ∀ as bs, lexCmp cmp as bs = .eq ↔ as = bs
  | [], [] => by simp [lexCmp]
  | [], _ :: _ => by simp [lexCmp]
  | _ :: _, [] => by simp [lexCmp]
  | a :: as, b :: bs => by
    simp only [lexCmp, ordThen_eq_eq]
    rw [hinj, lexCmp_eq_iff_of_inj hinj as bs]
    simp

/-! ## The `localeCompare` model -/

/-- Raw code-point comparison of characters. -/
def charCmp (a b : Char) : Ordering :=
  compare a.toNat b.toNat

/-- ASCII lower-casing, the primary (case-insensitive) collation key. -/
def lowerChar (c : Char) : Char :=
  if 65 ≤ c.toNat ∧ c.toNat ≤ 90 then Char.ofNat (c.toNat + 32) else c

/-- ICU tertiary weight of the case of a character: lowercase and caseless
characters before uppercase ones. -/
def caseRank (c : Char) : Nat :=
  if 65 ≤ c.toNat ∧ c.toNat ≤ 90 then 1 else 0

/-- Primary-level character comparison: case-insensitive code points. -/
def primCmp (a b : Char) : Ordering :=
  charCmp (lowerChar a) (lowerChar b)

/-- Tertiary-level character comparison: by case rank. -/
def caseCmp (a b : Char) : Ordering :=
  compare (caseRank a) (caseRank b)

/-- Model of JavaScript `String.prototype.localeCompare` (no arguments) under
the default ICU root collation, restricted to the character repertoire the
service exercises: strings compare first by their case-folded characters
(primary level), then by the case of each character (ICU tertiary level),
and finally — to make the model a total order — by raw code points. -/
def localeCompare (s t : String) : Ordering :=
  (lexCmp primCmp s.data t.data).then
    ((lexCmp caseCmp s.data t.data).then (lexCmp charCmp s.data t.data))

theorem charCmp_lawful : IsLawfulCmp charCmp :=
  cmpKey_lawful Char.toNat

theorem primCmp_lawful : IsLawfulCmp primCmp :=
  cmpKey_lawful (fun c => (lowerChar c).toNat)

theorem caseCmp_lawful : IsLawfulCmp caseCmp :=
  cmpKey_lawful caseRank

theorem localeCompare_lawful : IsLawfulCmp localeCompare :=
  cmpThen_lawful (comap_lawful String.data (lexCmp_lawful primCmp_lawful))
    (cmpThen_lawful (comap_lawful String.data (lexCmp_lawful caseCmp_lawful))
      (comap_lawful String.data (lexCmp_lawful charCmp_lawful)))

theorem charCmp_eq_iff (a b : Char) : charCmp a b = .eq ↔ a = b := by
  unfold charCmp
  rw [Nat.compare_eq_eq]
  constructor
  · intro h; exact Char.eq_of_val_eq (UInt32.ext h)
  · intro h; rw [h]

theorem string_data_eq {s t : String} (h : s.data = t.data) : s = t := by
  cases s; cases t; simp_all

theorem localeCompare_eq_iff {s t : String} : localeCompare s t = .eq ↔ s = t := by
  constructor
  · intro h
    unfold localeCompare at h
    rw [ordThen_eq_eq, ordThen_eq_eq] at h
    exact string_data_eq ((lexCmp_eq_iff_of_inj charCmp_eq_iff _ _).mp h.2.2)
  · intro h
    rw [h]
    exact localeCompare_lawful.refl_eq t

/-- The not-greater relation JavaScript `sort` induces from `localeCompare`. -/
def localeLe (s t : String) : Prop :=
  localeCompare s t ≠ .gt

instance localeLe.decRel : DecidableRel localeLe :=
  fun s t => inferInstanceAs (Decidable (localeCompare s t ≠ .gt))

instance localeLe.total : IsTotal String localeLe :=
  ⟨localeCompare_lawful.le_total⟩

instance localeLe.trans : IsTrans String localeLe :=
  ⟨fun _ _ _ hab hbd => localeCompare_lawful.le_trans hab hbd⟩

theorem localeLe_antisymm {s t : String} (h1 : localeLe s t) (h2 : localeLe t s) :
    s = t := by
  cases hc : localeCompare s t with
  | gt => exact absurd hc h1
  | eq => exact localeCompare_eq_iff.mp hc
  | lt =>
    exfalso
    apply h2
    have hs := localeCompare_lawful.swap_eq s t
    rw [hc] at hs
    cases hg : localeCompare t s <;> rw [hg] at hs <;> first | rfl | cases hs

instance localeLe.antisymmInst : IsAntisymm String localeLe :=
  ⟨fun _ _ => localeLe_antisymm⟩

/-! ## Sorting infrastructure -/

theorem lexCmp_congr {cmp₁ cmp₂ : Char → Char → Ordering} :
    ∀ as bs, (∀ a ∈ as, ∀ b ∈ bs, cmp₁ a b = cmp₂ a b) →
      lexCmp cmp₁ as bs = lexCmp cmp₂ as bs
  | [], [], _ => rfl
  | [], _ :: _, _ => rfl
  | _ :: _, [], _ => rfl
  | a :: as, b :: bs, h => by
    simp only [lexCmp]
    rw [h a (by simp) b (by simp),
      lexCmp_congr as bs (fun x hx y hy => h x (by simp [hx]) y (by simp [hy]))]

/-- On strings whose characters are fixed by lower-casing, the locale
comparison degenerates to raw code-point comparison. -/
theorem localeCompare_eq_codepoint {s t : String}
    (hs : ∀ c ∈ s.data, lowerChar c = c) (ht : ∀ c ∈ t.data, lowerChar c = c) :
    localeCompare s t = lexCmp charCmp s.data t.data := by
  have h1 : lexCmp primCmp s.data t.data = lexCmp charCmp s.data t.data := by
    apply lexCmp_congr
    intro a ha b hb
    unfold primCmp
    rw [hs a ha, ht b hb]
  unfold localeCompare
  rw [h1]
  cases hcp : lexCmp charCmp s.data t.data with
  | lt => rfl
  | gt => rfl
  | eq =>
    have hd : s.data = t.data := (lexCmp_eq_iff_of_inj charCmp_eq_iff _ _).mp hcp
    rw [hd, (lexCmp_lawful caseCmp_lawful).refl_eq t.data]
    rfl

theorem orderedInsert_congr {α : Type} {r s : α → α → Prop}
    [DecidableRel r] [DecidableRel s] (a : α) :
    ∀ l : List α, (∀ b ∈ l, (r a b ↔ s a b)) →
      l.orderedInsert r a = l.orderedInsert s a
  | [], _ => rfl
  | b :: bs, h => by
    simp only [List.orderedInsert]
    by_cases hr : r a b
    · rw [if_pos hr, if_pos ((h b (by simp)).mp hr)]
    · rw [if_neg hr, if_neg (fun hs' => hr ((h b (by simp)).mpr hs')),
        orderedInsert_congr a bs (fun x hx => h x (by simp [hx]))]

theorem insertionSort_congr {α : Type} {r s : α → α → Prop}
    [DecidableRel r] [DecidableRel s] :
    ∀ l : List α, (∀ a ∈ l, ∀ b ∈ l, (r a b ↔ s a b)) →
      List.insertionSort r l = List.insertionSort s l
  | [], _ => rfl
  | a :: as, h => by
    simp only [List.insertionSort]
    rw [insertionSort_congr as (fun x hx y hy => h x (by simp [hx]) y (by simp [hy]))]
    apply orderedInsert_congr
    intro b hb
    have hb' : b ∈ as := by
      have := (List.mem_insertionSort s).mp hb
      exact this
    exact h a (by simp) b (by simp [hb'])

/-- Helper for first-occurrence de-duplication: keeps the elements not yet
seen, in order. -/
def dedupFirstAux {α : Type} [DecidableEq α] (seen : List α) : List α → List α
  | [] => []
  | a :: as =>
    if a ∈ seen then dedupFirstAux seen as else a :: dedupFirstAux (a :: seen) as

/-- First-occurrence de-duplication, the order `[...new Set(xs)]` yields in
JavaScript. -/
def dedupFirst {α : Type} [DecidableEq α] (l : List α) : List α :=
  dedupFirstAux [] l

theorem dedupFirstAux_mem {α : Type} [DecidableEq α] :
    ∀ (l seen : List α) (x : α), x ∈ dedupFirstAux seen l ↔ x ∈ l ∧ x ∉ seen
  | [], seen, x => by simp [dedupFirstAux]
  | a :: as, seen, x => by
    rw [dedupFirstAux]
    by_cases ha : a ∈ seen
    · rw [if_pos ha, dedupFirstAux_mem as seen x]
      constructor
      · intro h; exact ⟨List.mem_cons_of_mem a h.1, h.2⟩
      · intro h
        refine ⟨?_, h.2⟩
        cases List.mem_cons.mp h.1 with
        | inl hx => exact absurd (hx ▸ ha) h.2
        | inr hx => exact hx
    · rw [if_neg ha]
      by_cases hx : x = a
      · subst hx
        simp [ha]
      · simp only [List.mem_cons, hx, false_or]
        rw [dedupFirstAux_mem as (a :: seen) x]
        simp [List.mem_cons, hx]

theorem dedupFirst_mem {α : Type} [DecidableEq α] (l : List α) (x : α) :
    x ∈ dedupFirst l ↔ x ∈ l := by
  rw [dedupFirst, dedupFirstAux_mem l [] x]
  simp

theorem dedupFirstAux_nodup {α : Type} [DecidableEq α] :
    ∀ (l seen : List α), (dedupFirstAux seen l).Nodup
  | [], _ => by simp [dedupFirstAux]
  | a :: as, seen => by
    rw [dedupFirstAux]
    by_cases ha : a ∈ seen
    · rw [if_pos ha]
      exact dedupFirstAux_nodup as seen
    · rw [if_neg ha]
      refine List.nodup_cons.mpr ⟨?_, dedupFirstAux_nodup as (a :: seen)⟩
      intro hmem
      have := (dedupFirstAux_mem as (a :: seen) a).mp hmem
      simp at this

theorem dedupFirst_nodup {α : Type} [DecidableEq α] (l : List α) :
    (dedupFirst l).Nodup :=
  dedupFirstAux_nodup l []

/-! ## Embedding of `src/services/concurrency-controls.ts` -/

/-- Embedding of `sortUniqueWalletIds`:
`[...new Set(walletIds)].sort((left, right) => left.localeCompare(right))`.
`new Set` keeps first occurrences; a JavaScript sort under a comparator that
never equates distinct strings is order-deterministic, modelled by insertion
sort under `localeLe`. -/
def sortUniqueWalletIds (walletIds : List String) : List String :=
  List.insertionSort localeLe (dedupFirst walletIds)

/-- Embedding of `toWalletLockKeys`: maps each sorted unique wallet id to
`lock:wallet:{walletId}`. -/
def toWalletLockKeys (walletIds : List String) : List String :=
  (sortUniqueWalletIds walletIds).map (fun walletId => "lock:wallet:" ++ walletId)

/-- The ascending code-point (non-strict) order on strings, following the
spec's words «sorted in ascending lexicographic (code-point) order»; the
refinement target the source's `localeCompare` order is compared against. -/
def codePointLe (s t : String) : Prop :=
  lexCmp charCmp s.data t.data ≠ .gt

instance codePointLe.decRel : DecidableRel codePointLe :=
  fun s t => inferInstanceAs (Decidable (lexCmp charCmp s.data t.data ≠ .gt))

/-- Modelled from the spec: `sortUniqueWalletIds` as the spec describes it,
with the de-duplicated ids sorted in ascending code-point order. -/
def sortUniqueWalletIdsSpec (walletIds : List String) : List String :=
  List.insertionSort codePointLe (dedupFirst walletIds)

/-- Embedding of the `AppError` class: an HTTP-like status code, a stable
machine code and a human message. -/
structure AppError where
  statusCode : Nat
  code : String
  message : String
deriving DecidableEq

/-- One row of the optimistic-update report consumed by
`assertOptimisticWalletUpdates`. -/
structure WalletUpdateResult where
  walletId : String
  updatedCount : Nat
deriving DecidableEq

/-- Embedding of `assertOptimisticWalletUpdates`: throws 409
`OPTIMISTIC_LOCK_CONFLICT` naming the first wallet whose conditional update
did not update exactly one row. -/
def assertOptimisticWalletUpdates (results : List WalletUpdateResult) :
    Except AppError Unit :=
  match results.find? (fun result => result.updatedCount ≠ 1) with
  | none => .ok ()
  | some conflicted =>
    .error ⟨409, "OPTIMISTIC_LOCK_CONFLICT",
      "Concurrent wallet update detected for wallet " ++ conflicted.walletId⟩

/-! ## Claim C7 -/

/-- C7, counterexample: the source sorts with `localeCompare`, which orders
`"a"` before `"B"`, while ascending code-point order puts `"B"` (U+0042)
before `"a"` (U+0061); so the result is not code-point sorted. -/
theorem sortUniqueWalletIds_not_codepoint_sorted :
    sortUniqueWalletIds ["B", "a"] = ["a", "B"] ∧
    sortUniqueWalletIdsSpec ["B", "a"] = ["B", "a"] ∧
    sortUniqueWalletIds ["B", "a"] ≠ sortUniqueWalletIdsSpec ["B", "a"] := by
  refine ⟨by decide, by decide, by decide⟩

/-- C7 (amended): `sortUniqueWalletIds` returns the de-duplicated ids sorted
ascending by the locale-aware `localeCompare` order (not raw code-point
order); the two orders coincide whenever no id contains an ASCII uppercase
letter — in particular on canonical lowercase UUID wallet ids — and
`toWalletLockKeys` returns `lock:wallet:{id}` over exactly that ordered
list. -/
theorem sortUniqueWalletIds_correct (ids : List String) :
    List.Sorted localeLe (sortUniqueWalletIds ids) ∧
    (sortUniqueWalletIds ids).Nodup ∧
    (∀ x, x ∈ sortUniqueWalletIds ids ↔ x ∈ ids) ∧
    toWalletLockKeys ids =
      (sortUniqueWalletIds ids).map (fun walletId => "lock:wallet:" ++ walletId) ∧
    ((∀ w ∈ ids, ∀ c ∈ w.data, lowerChar c = c) →
      sortUniqueWalletIds ids = sortUniqueWalletIdsSpec ids) := by
  refine ⟨List.sorted_insertionSort localeLe (dedupFirst ids),
    (List.perm_insertionSort localeLe (dedupFirst ids)).nodup_iff.mpr
      (dedupFirst_nodup ids),
    ?_, rfl, ?_⟩
  · intro x
    rw [sortUniqueWalletIds, List.mem_insertionSort, dedupFirst_mem]
  · intro hlower
    apply insertionSort_congr
    intro a ha b hb
    have ha' : a ∈ ids := (dedupFirst_mem ids a).mp ha
    have hb' : b ∈ ids := (dedupFirst_mem ids b).mp hb
    unfold localeLe codePointLe
    rw [localeCompare_eq_codepoint (hlower a ha') (hlower b hb')]

/-- C7 witness: the amended theorem evaluated on concrete lowercase ids. -/
theorem sortUniqueWalletIds_correct_witness :
    (∀ w ∈ ["wallet-b", "wallet-a", "wallet-b"], ∀ c ∈ w.data, lowerChar c = c) ∧
    sortUniqueWalletIds ["wallet-b", "wallet-a", "wallet-b"] =
      sortUniqueWalletIdsSpec ["wallet-b", "wallet-a", "wallet-b"] :=
  ⟨by decide,
    (sortUniqueWalletIds_correct ["wallet-b", "wallet-a", "wallet-b"]).2.2.2.2
      (by decide)⟩

/-! ## Embedding of `src/services/idempotency-cache.ts` — `DistributedLockService` -/

/-- The three lock-related configuration values of `env.ts`. -/
structure LockEnv where
  distributedLockTtlMs : Nat
  distributedLockRetryCount : Nat
  distributedLockRetryDelayMs : Nat
deriving DecidableEq

/-- Observable effects of `acquireWalletLocks` against the lock client.
`setKey` is `SET key token NX PX ttl` (granted iff the key was absent);
`delKey` is the `RELEASE_LOCK_SCRIPT` conditional delete — the key is
deleted iff its current value equals this acquisition's token; `sleep` is
the backoff between attempts.  Events carry the loop attempt number that
issued them. -/
inductive LockEvent where
  | setKey (attempt : Nat) (key : String) (ttlMs : Nat) (granted : Bool)
  | delKey (attempt : Nat) (key : String)
  | sleep (ms : Nat)
deriving DecidableEq

/-- The attempt number an event belongs to, if any. -/
def eventAttempt : LockEvent → Option Nat
  | .setKey attempt _ _ _ => some attempt
  | .delKey attempt _ => some attempt
  | .sleep _ => none

/-- The inner `for (const lockKey of lockKeys)` loop of one acquisition
attempt: issues `SET ... NX PX` per key in order, stopping at the first
failure.  `grant a k` is the environment's answer to the compare-and-set of
key `k` during attempt `a`.  Returns the keys acquired in this attempt, the
events issued, and whether every key was acquired. -/
def attemptSets (grant : Nat → String → Bool) (a ttl : Nat) :
    List String → List String × List LockEvent × Bool
  | [] => ([], [], true)
  | k :: ks =>
    if grant a k then
      let rest := attemptSets grant a ttl ks
      (k :: rest.1, .setKey a k ttl true :: rest.2.1, rest.2.2)
    else
      ([], [.setKey a k ttl false], false)

/-- The `for (let attempt = 1; attempt <= env.distributedLockRetryCount; ...)`
loop of `acquireWalletLocks`, with `remaining` attempts left and the current
attempt number: on full acquisition returns the held keys (the handle's
release set); otherwise releases this attempt's acquired keys by conditional
delete, sleeps `retryDelayMs * attempt` unless this was the final attempt,
and retries; after the final attempt fails with 423
`DISTRIBUTED_LOCK_NOT_ACQUIRED`. -/
def acquireGo (grant : Nat → String → Bool) (env : LockEnv) (keys : List String) :
    Nat → Nat → Except AppError (List String) × List LockEvent
  | 0, _ =>
    (.error ⟨423, "DISTRIBUTED_LOCK_NOT_ACQUIRED",
      "Could not acquire wallet lock. Please retry."⟩, [])
  | remaining + 1, attempt =>
    let this := attemptSets grant attempt env.distributedLockTtlMs keys
    if this.2.2 then
      (.ok this.1, this.2.1)
    else
      let rel := this.1.map (fun k => LockEvent.delKey attempt k)
      let backoff : List LockEvent :=
        if remaining ≠ 0 then [.sleep (env.distributedLockRetryDelayMs * attempt)]
        else []
      let next := acquireGo grant env keys remaining (attempt + 1)
      (next.1, this.2.1 ++ rel ++ backoff ++ next.2)

/-- Embedding of `DistributedLockService.acquireWalletLocks`: derives the
lock keys, fails immediately with 400 `LOCK_KEYS_MISSING` on an empty key
set, and otherwise runs the bounded retry loop starting at attempt 1.  The
single random token of the source is implicit: `delKey` events are
conditional deletes on that token. -/
def acquireWalletLocks (grant : Nat → String → Bool) (env : LockEnv)
    (walletIds : List String) : Except AppError (List String) × List LockEvent :=
  let lockKeys := toWalletLockKeys walletIds
  if lockKeys.isEmpty then
    (.error ⟨400, "LOCK_KEYS_MISSING", "No lock keys were provided"⟩, [])
  else
    acquireGo grant env lockKeys env.distributedLockRetryCount 1

/-- All keys granted during attempt `a` — the success condition of an
attempt. -/
def allGranted (grant : Nat → String → Bool) (a : Nat) (keys : List String) : Prop :=
  ∀ k ∈ keys, grant a k = true

instance allGranted.decRel (grant : Nat → String → Bool) (a : Nat)
    (keys : List String) : Decidable (allGranted grant a keys) :=
  inferInstanceAs (Decidable (∀ k ∈ keys, grant a k = true))

/-- The events a single failed attempt `a` must produce according to the
claim: successful compare-and-sets for the granted front of the key list, a
failed compare-and-set on the first refused key, conditional deletes of
exactly the keys acquired in this attempt, then a backoff of
`retryDelayMs * a` unless `a` was the final attempt. -/
def attemptFailEvents (grant : Nat → String → Bool) (env : LockEnv)
    (keys : List String) (a : Nat) : List LockEvent :=
  let granted := keys.takeWhile (fun k => grant a k)
  granted.map (fun k => LockEvent.setKey a k env.distributedLockTtlMs true) ++
    (match keys.dropWhile (fun k => grant a k) with
      | [] => []
      | k :: _ => [LockEvent.setKey a k env.distributedLockTtlMs false]) ++
    granted.map (fun k => LockEvent.delKey a k) ++
    (if a < env.distributedLockRetryCount then
      [LockEvent.sleep (env.distributedLockRetryDelayMs * a)]
    else [])

/-- The full event trace of an acquisition in which every attempt fails. -/
def lockFailTrace (grant : Nat → String → Bool) (env : LockEnv)
    (keys : List String) : List LockEvent :=
  (List.range' 1 env.distributedLockRetryCount).flatMap
    (attemptFailEvents grant env keys)

theorem attemptSets_eq (grant : Nat → String → Bool) (a ttl : Nat) :
    ∀ keys : List String,
      attemptSets grant a ttl keys =
        (keys.takeWhile (fun k => grant a k),
          (keys.takeWhile (fun k => grant a k)).map
            (fun k => LockEvent.setKey a k ttl true) ++
            (match keys.dropWhile (fun k => grant a k) with
              | [] => []
              | k :: _ => [LockEvent.setKey a k ttl false]),
          keys.all (fun k => grant a k))
  | [] => rfl
  | k :: ks => by
    by_cases h : grant a k
    · simp only [attemptSets, if_pos h, attemptSets_eq grant a ttl ks,
        List.takeWhile_cons, List.dropWhile_cons, h, if_true, List.map_cons,
        List.cons_append, List.all_cons]
      simp [h]
    · simp only [attemptSets, if_neg h]
      have hb : grant a k = false := by simp [h]
      simp [List.takeWhile_cons, List.dropWhile_cons, hb, List.all_cons]

theorem attemptSets_event_attempt (grant : Nat → String → Bool) (a ttl : Nat)
    (keys : List String) :
    ∀ e ∈ (attemptSets grant a ttl keys).2.1, eventAttempt e = some a := by
  rw [attemptSets_eq]
  intro e he
  rcases List.mem_append.mp he with h | h
  · rcases List.mem_map.mp h with ⟨k, _, rfl⟩
    rfl
  · cases hd : keys.dropWhile (fun k => grant a k) with
    | nil => rw [hd] at h; cases h
    | cons k ks =>
      rw [hd] at h
      rcases List.mem_singleton.mp h with rfl
      rfl

theorem acquireGo_attempt_bound (grant : Nat → String → Bool) (env : LockEnv)
    (keys : List String) :
    ∀ remaining attempt, ∀ e ∈ (acquireGo grant env keys remaining attempt).2,
      ∀ a, eventAttempt e = some a → attempt ≤ a ∧ a < attempt + remaining
  | 0, attempt => by simp [acquireGo]
  | remaining + 1, attempt => by
    intro e he a hea
    rw [acquireGo] at he
    by_cases hok : (attemptSets grant attempt env.distributedLockTtlMs keys).2.2
    · rw [if_pos hok] at he
      have := attemptSets_event_attempt grant attempt env.distributedLockTtlMs keys e he
      rw [this] at hea
      simp only [Option.some.injEq] at hea
      omega
    · rw [if_neg hok] at he
      simp only [List.mem_append] at he
      rcases he with ((h | h) | h) | h
      · have := attemptSets_event_attempt grant attempt env.distributedLockTtlMs keys e h
        rw [this] at hea
        simp only [Option.some.injEq] at hea
        omega
      · rcases List.mem_map.mp h with ⟨k, _, rfl⟩
        simp only [eventAttempt, Option.some.injEq] at hea
        omega
      · by_cases hr : remaining ≠ 0
        · rw [if_pos hr] at h
          rcases List.mem_singleton.mp h with rfl
          cases hea
        · rw [if_neg hr] at h
          cases h
      · have := acquireGo_attempt_bound grant env keys remaining (attempt + 1) e h a hea
        omega

theorem acquireGo_fail (grant : Nat → String → Bool) (env : LockEnv)
    (keys : List String) :
    ∀ remaining attempt, 1 ≤ attempt →
      remaining + attempt = env.distributedLockRetryCount + 1 →
      (∀ a, attempt ≤ a → a ≤ env.distributedLockRetryCount →
        ¬ allGranted grant a keys) →
      acquireGo grant env keys remaining attempt =
        (.error ⟨423, "DISTRIBUTED_LOCK_NOT_ACQUIRED",
          "Could not acquire wallet lock. Please retry."⟩,
          (List.range' attempt remaining).flatMap (attemptFailEvents grant env keys))
  | 0, attempt => by
    intro _ _ _
    simp [acquireGo]
  | remaining + 1, attempt => by
    intro h1 hsum hfail
    have hle : attempt ≤ env.distributedLockRetryCount := by omega
    have hng : ¬ allGranted grant attempt keys := hfail attempt (Nat.le_refl _) hle
    have hok : (attemptSets grant attempt env.distributedLockTtlMs keys).2.2 = false := by
      rw [attemptSets_eq]
      show keys.all (fun k => grant attempt k) = false
      simp only [allGranted] at hng
      cases hall : keys.all (fun k => grant attempt k) with
      | false => rfl
      | true => exact absurd (fun k hk => List.all_eq_true.mp hall k hk) hng
    rw [acquireGo, if_neg (by rw [hok]; exact Bool.false_ne_true)]
    rw [acquireGo_fail grant env keys remaining (attempt + 1) (by omega) (by omega)
      (fun a ha1 ha2 => hfail a (by omega) ha2)]
    have hrange : List.range' attempt (remaining + 1) =
        attempt :: List.range' (attempt + 1) remaining := rfl
    rw [hrange, List.flatMap_cons]
    have hback : (if remaining ≠ 0 then
        [LockEvent.sleep (env.distributedLockRetryDelayMs * attempt)] else []) =
        (if attempt < env.distributedLockRetryCount then
          [LockEvent.sleep (env.distributedLockRetryDelayMs * attempt)] else []) := by
      by_cases hr : remaining = 0
      · rw [if_neg (by omega), if_neg (by omega)]
      · rw [if_pos (by omega), if_pos (by omega)]
    rw [hback]
    rw [attemptSets_eq]
    simp only [attemptFailEvents]

/-! ## Claim C6 -/

theorem toWalletLockKeys_ne_nil {walletIds : List String} (h : walletIds ≠ []) :
    toWalletLockKeys walletIds ≠ [] := by
  cases walletIds with
  | nil => exact absurd rfl h
  | cons w ws =>
    intro hk
    have hw : w ∈ sortUniqueWalletIds (w :: ws) :=
      ((sortUniqueWalletIds_correct (w :: ws)).2.2.1 w).mpr (by simp)
    have : ("lock:wallet:" ++ w) ∈ toWalletLockKeys (w :: ws) :=
      List.mem_map.mpr ⟨w, hw, rfl⟩
    rw [hk] at this
    cases this

/-- C6: `acquireWalletLocks` retries at most `DISTRIBUTED_LOCK_RETRY_COUNT`
times (every set/delete event carries an attempt number between 1 and the
retry count); an empty wallet-id set fails immediately with 400
`LOCK_KEYS_MISSING` and no lock-client traffic; and when every attempt fails
to seize all keys, the call fails with 423 `DISTRIBUTED_LOCK_NOT_ACQUIRED`
and its trace is exactly, per attempt: the granted compare-and-sets, the
one refused compare-and-set, token-conditional deletes of exactly the keys
acquired in that attempt, then a backoff of `retryDelay × attemptNumber`
except after the final attempt. -/
theorem acquireWalletLocks_spec (grant : Nat → String → Bool) (env : LockEnv)
    (walletIds : List String) :
    (walletIds = [] →
      acquireWalletLocks grant env walletIds =
        (.error ⟨400, "LOCK_KEYS_MISSING", "No lock keys were provided"⟩, [])) ∧
    (∀ e ∈ (acquireWalletLocks grant env walletIds).2, ∀ a,
      eventAttempt e = some a → 1 ≤ a ∧ a ≤ env.distributedLockRetryCount) ∧
    (walletIds ≠ [] →
      (∀ a, 1 ≤ a → a ≤ env.distributedLockRetryCount →
        ¬ allGranted grant a (toWalletLockKeys walletIds)) →
      acquireWalletLocks grant env walletIds =
        (.error ⟨423, "DISTRIBUTED_LOCK_NOT_ACQUIRED",
          "Could not acquire wallet lock. Please retry."⟩,
          lockFailTrace grant env (toWalletLockKeys walletIds))) := by
  refine ⟨?_, ?_, ?_⟩
  · intro h
    subst h
    rfl
  · intro e he a hea
    unfold acquireWalletLocks at he
    by_cases hemp : (toWalletLockKeys walletIds).isEmpty
    · rw [if_pos hemp] at he
      cases he
    · rw [if_neg hemp] at he
      have := acquireGo_attempt_bound grant env (toWalletLockKeys walletIds)
        env.distributedLockRetryCount 1 e he a hea
      omega
  · intro hne hfail
    unfold acquireWalletLocks
    have hemp : (toWalletLockKeys walletIds).isEmpty = false := by
      cases hk : toWalletLockKeys walletIds with
      | nil => exact absurd hk (toWalletLockKeys_ne_nil hne)
      | cons k ks => rfl
    rw [if_neg (by rw [hemp]; exact Bool.false_ne_true)]
    rw [acquireGo_fail grant env (toWalletLockKeys walletIds)
      env.distributedLockRetryCount 1 (Nat.le_refl 1) rfl
      (fun a h1 h2 => hfail a h1 h2)]
    rfl

/-- C6 witness: a two-wallet acquisition in which the second lock key is
always held elsewhere, under the default configuration (ttl 5000 ms, 3
attempts, 50 ms base delay). -/
theorem acquireWalletLocks_spec_witness :
    (["w2", "w1"] ≠ ([] : List String)) ∧
    acquireWalletLocks (fun _ k => decide (k = "lock:wallet:w1")) ⟨5000, 3, 50⟩
        ["w2", "w1"] =
      (.error ⟨423, "DISTRIBUTED_LOCK_NOT_ACQUIRED",
        "Could not acquire wallet lock. Please retry."⟩,
        lockFailTrace (fun _ k => decide (k = "lock:wallet:w1")) ⟨5000, 3, 50⟩
          (toWalletLockKeys ["w2", "w1"])) :=
  ⟨by decide,
    (acquireWalletLocks_spec (fun _ k => decide (k = "lock:wallet:w1"))
        ⟨5000, 3, 50⟩ ["w2", "w1"]).2.2 (by decide)
      (fun a h1 h2 => by
        have h3 : a ≤ 3 := h2
        interval_cases a <;> decide)⟩

/-! ## Decimal rendering of integer amounts

JavaScript serialises `BigInt` amounts and balances with `toString()`, giving
plain decimal digits with an optional leading minus sign. -/

/-- The character of a decimal digit. -/
def digitChar (n : Nat) : Char :=
  Char.ofNat (48 + n)

/-- Fuelled most-significant-first decimal digits of a natural number. -/
def natCharsAux : Nat → Nat → List Char
  | 0, _ => []
  | fuel + 1, n =>
    if n < 10 then [digitChar n]
    else natCharsAux fuel (n / 10) ++ [digitChar (n % 10)]

/-- Decimal digits of a natural number (`fuel = n + 1` always suffices). -/
def natToChars (n : Nat) : List Char :=
  natCharsAux (n + 1) n

/-- Decimal rendering of an integer, as `BigInt.prototype.toString`. -/
def intToChars (i : Int) : List Char :=
  if i < 0 then '-' :: natToChars i.natAbs else natToChars i.toNat

/-- Decimal string of an integer. -/
def intToString (i : Int) : String :=
  String.mk (intToChars i)

/-! ## Embedding of the relational schema (`prisma/migrations`)

Rows carry the columns the service reads or writes; `created_at` values are
opaque strings supplied by the caller, and generated row ids for ledger
entries are omitted (nothing reads them). -/

inductive WalletOwnerType where
  | USER
  | SYSTEM
deriving DecidableEq

inductive TransactionType where
  | TOPUP
  | BONUS
  | SPEND
deriving DecidableEq

inductive TransactionStatus where
  | PROCESSING
  | POSTED
  | FAILED
deriving DecidableEq

inductive EntryType where
  | DEBIT
  | CREDIT
deriving DecidableEq

/-- A `users` row. -/
structure UserRow where
  id : String
  email : String
deriving DecidableEq

/-- An `asset_types` row. -/
structure AssetType where
  id : String
  code : String
  name : String
deriving DecidableEq

/-- A `wallets` row, with the optimistic-locking `version` column added by
the prod-hardening migration. -/
structure Wallet where
  id : String
  userId : Option String
  ownerType : WalletOwnerType
  systemCode : Option String
  assetTypeId : String
  version : Nat
deriving DecidableEq

/-- The `{error: {code, message}}` body of a failed mutation. -/
structure ErrorInfo where
  code : String
  message : String
deriving DecidableEq

/-- The success body of a posted mutation (§6 of the spec). -/
structure WalletMutationSuccessPayload where
  transactionId : String
  idempotencyKey : String
  operation : String
  userId : String
  assetCode : String
  amount : String
  balance : String
  fromWalletId : String
  toWalletId : String
  createdAt : String
deriving DecidableEq

/-- A persisted mutation response body: success payload or error payload. -/
inductive WalletMutationPayload where
  | success (payload : WalletMutationSuccessPayload)
  | failure (error : ErrorInfo)
deriving DecidableEq

/-- A `transactions` row: the audit and idempotency record. -/
structure Transaction where
  id : String
  idempotencyKey : String
  requestHash : String
  type : TransactionType
  status : TransactionStatus
  amount : Int
  assetTypeId : String
  sourceWalletId : String
  destinationWalletId : String
  responseCode : Option Nat
  responseBody : Option WalletMutationPayload
  errorCode : Option String
  createdAt : String
deriving DecidableEq

/-- A `ledger_entries` row (generated id and created_at omitted). -/
structure LedgerEntry where
  transactionId : String
  walletId : String
  assetTypeId : String
  entryType : EntryType
  amount : Int
deriving DecidableEq

/-- The database state the mutation engine reads and writes. -/
structure DBState where
  users : List UserRow
  assetTypes : List AssetType
  wallets : List Wallet
  transactions : List Transaction
  ledger : List LedgerEntry
deriving DecidableEq

/-! ## Embedding of `src/services/wallet-service.ts` -/

/-- A validated mutation request, after the route schema has normalised the
amount to a big integer and the idempotency middleware attached the key and
fingerprint. -/
structure WalletMutationRequest where
  userId : String
  assetCode : String
  amount : Int
  idempotencyKey : String
  requestFingerprint : String
deriving DecidableEq

/-- The result of a mutation: HTTP-like status, body, and replay marker. -/
structure WalletMutationResult where
  statusCode : Nat
  body : WalletMutationPayload
  replayed : Bool
deriving DecidableEq

/-- The fast-cache payload of `idempotency-cache.ts`. -/
structure CachedIdempotencyPayload where
  requestFingerprint : String
  statusCode : Nat
  body : WalletMutationPayload
deriving DecidableEq

/-- The resolved execution context of a mutation. -/
structure WalletExecutionContext where
  assetTypeId : String
  assetCode : String
  userWalletId : String
  treasuryWalletId : String
deriving DecidableEq

/-- ASCII upper-casing of a character, as `String.prototype.toUpperCase` on
the ASCII range. -/
def upperChar (c : Char) : Char :=
  if 97 ≤ c.toNat ∧ c.toNat ≤ 122 then Char.ofNat (c.toNat - 32) else c

/-- ASCII upper-casing of a string. -/
def jsToUpper (s : String) : String :=
  String.mk (s.data.map upperChar)

/-- The well-known treasury system code. -/
def TREASURY_SYSTEM_CODE : String :=
  "TREASURY"

/-- Embedding of `operationLabel`. -/
def operationLabel : TransactionType → String
  | .TOPUP => "topup"
  | .BONUS => "bonus"
  | .SPEND => "spend"

/-- Embedding of `WalletService.resolveContext`: look the asset type up by
upper-cased code (404), the user's wallet for that asset (404), and the
TREASURY system wallet for that asset (500). -/
def resolveContext (st : DBState) (userId assetCode : String) :
    Except AppError WalletExecutionContext :=
  let normalizedCode := jsToUpper assetCode
  match st.assetTypes.find? (fun assetType => assetType.code == normalizedCode) with
  | none =>
    .error ⟨404, "ASSET_TYPE_NOT_FOUND", "Unknown asset code: " ++ assetCode⟩
  | some assetType =>
    match st.wallets.find? (fun w =>
        decide (w.ownerType = .USER ∧ w.userId = some userId ∧
          w.assetTypeId = assetType.id)) with
    | none =>
      .error ⟨404, "USER_WALLET_NOT_FOUND",
        "Wallet for user " ++ userId ++ " and asset " ++ assetType.code ++
          " does not exist"⟩
    | some userWallet =>
      match st.wallets.find? (fun w =>
          decide (w.ownerType = .SYSTEM ∧ w.systemCode = some TREASURY_SYSTEM_CODE ∧
            w.assetTypeId = assetType.id)) with
      | none =>
        .error ⟨500, "TREASURY_WALLET_NOT_CONFIGURED",
          "Treasury wallet missing for asset " ++ assetType.code⟩
      | some treasuryWallet =>
        .ok ⟨assetType.id, assetType.code, userWallet.id, treasuryWallet.id⟩

/-- Source wallet of a mutation: the user wallet for SPEND, else TREASURY. -/
def mutationSourceWalletId (type : TransactionType)
    (context : WalletExecutionContext) : String :=
  match type with
  | .SPEND => context.userWalletId
  | _ => context.treasuryWalletId

/-- Destination wallet of a mutation: TREASURY for SPEND, else the user
wallet. -/
def mutationDestinationWalletId (type : TransactionType)
    (context : WalletExecutionContext) : String :=
  match type with
  | .SPEND => context.treasuryWalletId
  | _ => context.userWalletId

/-- Outcome of `createOrReplayTransaction`: a fresh PROCESSING row or a
replayed stored response. -/
inductive CreateOrReplayResult where
  | created (transactionId : String) (createdAt : String)
  | replay (result : WalletMutationResult)
deriving DecidableEq

/-- Embedding of `WalletService.createOrReplayTransaction`.  Inserting the
PROCESSING row fails with a unique violation (Prisma `P2002`) exactly when a
row with the same `idempotencyKey` exists; on that violation the existing
row is loaded and classified: different `requestHash` → 409 key-reuse;
`responseCode` or `responseBody` still NULL → 409 in-progress; otherwise the
stored response is replayed. -/
def createOrReplayTransaction (st : DBState) (type : TransactionType)
    (input : WalletMutationRequest)
    (assetTypeId sourceWalletId destinationWalletId : String)
    (freshId now : String) : Except AppError (DBState × CreateOrReplayResult) :=
  if st.transactions.any (fun t => t.idempotencyKey == input.idempotencyKey) then
    match st.transactions.find? (fun t => t.idempotencyKey == input.idempotencyKey) with
    | none =>
      .error ⟨500, "IDEMPOTENCY_STATE_NOT_FOUND",
        "Failed to load transaction for existing Idempotency-Key"⟩
    | some existing =>
      if existing.requestHash ≠ input.requestFingerprint then
        .error ⟨409, "IDEMPOTENCY_KEY_REUSED_WITH_DIFFERENT_REQUEST",
          "Idempotency-Key has already been used with a different request payload"⟩
      else
        match existing.responseCode, existing.responseBody with
        | none, _ =>
          .error ⟨409, "REQUEST_ALREADY_IN_PROGRESS",
            "A request with this Idempotency-Key is currently in progress"⟩
        | some _, none =>
          .error ⟨409, "REQUEST_ALREADY_IN_PROGRESS",
            "A request with this Idempotency-Key is currently in progress"⟩
        | some responseCode, some responseBody =>
          .ok (st, .replay ⟨responseCode, responseBody, true⟩)
  else
    let created : Transaction :=
      { id := freshId
        idempotencyKey := input.idempotencyKey
        requestHash := input.requestFingerprint
        type := type
        status := .PROCESSING
        amount := input.amount
        assetTypeId := assetTypeId
        sourceWalletId := sourceWalletId
        destinationWalletId := destinationWalletId
        responseCode := none
        responseBody := none
        errorCode := none
        createdAt := now }
    .ok ({ st with transactions := st.transactions ++ [created] },
      .created freshId now)

/-- Embedding of `WalletService.lockWallets`: `SELECT id, version FROM
wallets WHERE id IN (...) ORDER BY id FOR UPDATE`.  `ORDER BY id` on the
`uuid` column is byte order, i.e. code-point order on the canonical
lowercase-hex rendering; duplicate ids in the IN-set do not duplicate
rows. -/
def lockWallets (st : DBState) (walletIds : List String) : List (String × Nat) :=
  (List.insertionSort codePointLe (dedupFirst walletIds)).filterMap
    (fun walletId =>
      (st.wallets.find? (fun w => w.id == walletId)).map
        (fun w => (w.id, w.version)))

/-- Embedding of `WalletService.getWalletBalance`: the signed sum of ledger
entries of the wallet and asset — CREDIT positive, DEBIT negative — with
`COALESCE` to 0 on an empty set. -/
def getWalletBalance (st : DBState) (walletId assetTypeId : String) : Int :=
  (st.ledger.filter (fun e => e.walletId == walletId && e.assetTypeId == assetTypeId)).foldl
    (fun acc e =>
      match e.entryType with
      | .CREDIT => acc + e.amount
      | .DEBIT => acc - e.amount) 0

/-- One `updateMany` step per locked wallet: bump `version` where both id
and the previously read version still match, reporting the number of rows
affected. -/
def applyVersionBumps (wallets : List Wallet) :
    List (String × Nat) → List Wallet × List WalletUpdateResult
  | [] => (wallets, [])
  | (walletId, version) :: rest =>
    let matched := wallets.countP (fun w => w.id == walletId && w.version == version)
    let updatedWallets := wallets.map (fun w =>
      if w.id == walletId && w.version == version then
        { w with version := w.version + 1 }
      else w)
    let next := applyVersionBumps updatedWallets rest
    (next.1, ⟨walletId, matched⟩ :: next.2)

/-- Embedding of `WalletService.bumpWalletVersions`: run the conditional
bumps in order, then assert every update touched exactly one row. -/
def bumpWalletVersions (st : DBState) (lockedWallets : List (String × Nat)) :
    Except AppError DBState :=
  let bumped := applyVersionBumps st.wallets lockedWallets
  match assertOptimisticWalletUpdates bumped.2 with
  | .ok _ => .ok { st with wallets := bumped.1 }
  | .error e => .error e

/-- Update of the unique transaction row with the given id. -/
def updateTransactionRow (st : DBState) (transactionId : String)
    (f : Transaction → Transaction) : DBState :=
  { st with transactions := st.transactions.map (fun t =>
      if t.id == transactionId then f t else t) }

/-- Embedding of `WalletService.executeMutation`.

The fast-cache lookup result is passed in as `cached` (the cache is
best-effort and non-authoritative; a read error surfaces as `none`).
`freshId` is the generated id of a newly inserted transaction row and `now`
its `created_at` rendering.  The distributed lock acquisition and release
around the database transaction are modelled separately
(`acquireWalletLocks`) and do not touch the database state.  The Prisma
`$transaction` rollback semantics are the `Except` semantics: any `.error`
leaves the state unobserved, while the INSUFFICIENT_FUNDS branch returns
normally and commits. -/
def executeMutation (type : TransactionType) (input : WalletMutationRequest)
    (cached : Option CachedIdempotencyPayload) (freshId now : String)
    (st : DBState) : Except AppError (DBState × WalletMutationResult) :=
  match cached with
  | some cachedPayload =>
    if cachedPayload.requestFingerprint ≠ input.requestFingerprint then
      .error ⟨409, "IDEMPOTENCY_KEY_REUSED_WITH_DIFFERENT_REQUEST",
        "Idempotency-Key has already been used with a different request payload"⟩
    else
      .ok (st, ⟨cachedPayload.statusCode, cachedPayload.body, true⟩)
  | none =>
    match resolveContext st input.userId input.assetCode with
    | .error e => .error e
    | .ok context =>
      let sourceWalletId := mutationSourceWalletId type context
      let destinationWalletId := mutationDestinationWalletId type context
      match createOrReplayTransaction st type input context.assetTypeId
          sourceWalletId destinationWalletId freshId now with
      | .error e => .error e
      | .ok (st1, .replay result) => .ok (st1, result)
      | .ok (st1, .created transactionId createdAt) =>
        let lockedWallets := lockWallets st1 [sourceWalletId, destinationWalletId]
        let expectedWalletIds := sortUniqueWalletIds [sourceWalletId, destinationWalletId]
        if lockedWallets.length ≠ expectedWalletIds.length then
          .error ⟨409, "LOCKED_WALLET_MISMATCH",
            "Wallet set changed during transaction. Retry request."⟩
        else
          let sourceBalance := getWalletBalance st1 sourceWalletId context.assetTypeId
          if sourceBalance < input.amount then
            let body : WalletMutationPayload :=
              .failure ⟨"INSUFFICIENT_FUNDS", "Insufficient wallet balance"⟩
            let st2 := updateTransactionRow st1 transactionId (fun t =>
              { t with status := .FAILED
                       errorCode := some "INSUFFICIENT_FUNDS"
                       responseCode := some 409
                       responseBody := some body })
            .ok (st2, ⟨409, body, false⟩)
          else
            let debitEntry : LedgerEntry :=
              ⟨transactionId, sourceWalletId, context.assetTypeId, .DEBIT, input.amount⟩
            let creditEntry : LedgerEntry :=
              ⟨transactionId, destinationWalletId, context.assetTypeId, .CREDIT, input.amount⟩
            let st2 := { st1 with ledger := st1.ledger ++ [debitEntry, creditEntry] }
            match bumpWalletVersions st2 lockedWallets with
            | .error e => .error e
            | .ok st3 =>
              let userBalance := getWalletBalance st3 context.userWalletId context.assetTypeId
              let body : WalletMutationSuccessPayload :=
                { transactionId := transactionId
                  idempotencyKey := input.idempotencyKey
                  operation := operationLabel type
                  userId := input.userId
                  assetCode := context.assetCode
                  amount := intToString input.amount
                  balance := intToString userBalance
                  fromWalletId := sourceWalletId
                  toWalletId := destinationWalletId
                  createdAt := createdAt }
              let st4 := updateTransactionRow st3 transactionId (fun t =>
                { t with status := .POSTED
                         responseCode := some 200
                         responseBody := some (.success body) })
              .ok (st4, ⟨200, .success body, false⟩)

/-- One row of the balance response. -/
structure WalletBalanceEntry where
  assetCode : String
  assetName : String
  balance : String
deriving DecidableEq

/-- The balance response of `getBalance`. -/
structure WalletBalanceResponse where
  userId : String
  balances : List WalletBalanceEntry
deriving DecidableEq

/-- Ascending order on balance rows by asset code, the `ORDER BY a.code` of
the balance query (modelled as code-point order on the upper-case asset
codes). -/
def balanceRowLe (x y : String × String × Int) : Prop :=
  codePointLe x.1 y.1

instance balanceRowLe.decRel : DecidableRel balanceRowLe :=
  fun x y => codePointLe.decRel x.1 y.1

/-- Embedding of `WalletService.getBalance`: verify the user exists (404),
join the user's wallets with their asset types, aggregate each wallet's
ledger entries with `COALESCE(..., 0)` via the LEFT JOIN — so a wallet with
no entries contributes a 0 row rather than disappearing — optionally filter
by upper-cased asset code (404 `ASSET_WALLET_NOT_FOUND` when the filter
matches nothing), and sort rows by asset code.  Under the schema's unique
`(owner_type, user_id, asset_type_id)` index each `GROUP BY (code, name)`
group is exactly one user wallet. -/
def getBalance (st : DBState) (userId : String) (assetCode : Option String) :
    Except AppError WalletBalanceResponse :=
  match st.users.find? (fun u => u.id == userId) with
  | none => .error ⟨404, "USER_NOT_FOUND", "User does not exist"⟩
  | some _ =>
    let normalizedAssetCode := assetCode.map jsToUpper
    let rows := (st.wallets.filter (fun w =>
        w.ownerType == .USER && w.userId == some userId)).filterMap
      (fun w =>
        (st.assetTypes.find? (fun a => a.id == w.assetTypeId)).bind (fun a =>
          match normalizedAssetCode with
          | some code =>
            if a.code == code then
              some (a.code, a.name, getWalletBalance st w.id w.assetTypeId)
            else none
          | none => some (a.code, a.name, getWalletBalance st w.id w.assetTypeId)))
    let sortedRows := List.insertionSort balanceRowLe rows
    match normalizedAssetCode with
    | some code =>
      if sortedRows.isEmpty then
        .error ⟨404, "ASSET_WALLET_NOT_FOUND",
          "User does not have a wallet for asset " ++ code⟩
      else
        .ok ⟨userId, sortedRows.map (fun r => ⟨r.1, r.2.1, intToString r.2.2⟩)⟩
    | none =>
      .ok ⟨userId, sortedRows.map (fun r => ⟨r.1, r.2.1, intToString r.2.2⟩)⟩

instance exceptDecEq {ε α : Type} [DecidableEq ε] [DecidableEq α] :
    DecidableEq (Except ε α) := fun a b =>
  match a, b with
  | .ok x, .ok y =>
    if h : x = y then isTrue (by rw [h]) else isFalse (by intro hc; cases hc; exact h rfl)
  | .error x, .error y =>
    if h : x = y then isTrue (by rw [h]) else isFalse (by intro hc; cases hc; exact h rfl)
  | .ok _, .error _ => isFalse (by intro hc; cases hc)
  | .error _, .ok _ => isFalse (by intro hc; cases hc)

/-- The 409 INSUFFICIENT_FUNDS error body the engine persists and returns. -/
def insufficientFundsBody : WalletMutationPayload :=
  .failure ⟨"INSUFFICIENT_FUNDS", "Insufficient wallet balance"⟩

/-- The PROCESSING transaction row inserted by `createOrReplayTransaction`. -/
def processingRow (type : TransactionType) (input : WalletMutationRequest)
    (assetTypeId sourceWalletId destinationWalletId freshId now : String) :
    Transaction :=
  { id := freshId
    idempotencyKey := input.idempotencyKey
    requestHash := input.requestFingerprint
    type := type
    status := .PROCESSING
    amount := input.amount
    assetTypeId := assetTypeId
    sourceWalletId := sourceWalletId
    destinationWalletId := destinationWalletId
    responseCode := none
    responseBody := none
    errorCode := none
    createdAt := now }

theorem createOrReplay_replay_inversion {st : DBState} {type : TransactionType}
    {input : WalletMutationRequest} {aid src dst freshId now : String}
    {st1 : DBState} {r : WalletMutationResult}
    (h : createOrReplayTransaction st type input aid src dst freshId now =
      .ok (st1, .replay r)) :
    st1 = st ∧ r.replayed = true := by
  unfold createOrReplayTransaction at h
  by_cases hany : st.transactions.any (fun t => t.idempotencyKey == input.idempotencyKey)
  · rw [if_pos hany] at h
    cases hfind : st.transactions.find? (fun t => t.idempotencyKey == input.idempotencyKey) with
    | none => rw [hfind] at h; simp at h
    | some existing =>
      rw [hfind] at h
      dsimp only at h
      by_cases hhash : existing.requestHash ≠ input.requestFingerprint
      · rw [if_pos hhash] at h; simp at h
      · rw [if_neg hhash] at h
        cases hrc : existing.responseCode with
        | none => rw [hrc] at h; simp at h
        | some responseCode =>
          cases hrb : existing.responseBody with
          | none => rw [hrc, hrb] at h; simp at h
          | some responseBody =>
            rw [hrc, hrb] at h
            simp only [Except.ok.injEq, Prod.mk.injEq, CreateOrReplayResult.replay.injEq] at h
            exact ⟨h.1.symm, by rw [← h.2]⟩
  · rw [if_neg hany] at h
    simp at h

theorem createOrReplay_created_inversion {st : DBState} {type : TransactionType}
    {input : WalletMutationRequest} {aid src dst freshId now : String}
    {st1 : DBState} {txId createdAt : String}
    (h : createOrReplayTransaction st type input aid src dst freshId now =
      .ok (st1, .created txId createdAt)) :
    (st.transactions.any (fun t => t.idempotencyKey == input.idempotencyKey)) = false ∧
    txId = freshId ∧ createdAt = now ∧
    st1 = { st with transactions :=
      st.transactions ++ [processingRow type input aid src dst freshId now] } := by
  unfold createOrReplayTransaction at h
  by_cases hany : st.transactions.any (fun t => t.idempotencyKey == input.idempotencyKey)
  · rw [if_pos hany] at h
    cases hfind : st.transactions.find? (fun t => t.idempotencyKey == input.idempotencyKey) with
    | none => rw [hfind] at h; simp at h
    | some existing =>
      rw [hfind] at h
      dsimp only at h
      by_cases hhash : existing.requestHash ≠ input.requestFingerprint
      · rw [if_pos hhash] at h; simp at h
      · rw [if_neg hhash] at h
        cases hrc : existing.responseCode with
        | none => rw [hrc] at h; simp at h
        | some responseCode =>
          cases hrb : existing.responseBody with
          | none => rw [hrc, hrb] at h; simp at h
          | some responseBody => rw [hrc, hrb] at h; simp at h
  · rw [if_neg hany] at h
    simp only [Except.ok.injEq, Prod.mk.injEq, CreateOrReplayResult.created.injEq] at h
    refine ⟨by simp [hany], h.2.1.symm, h.2.2.symm, ?_⟩
    rw [← h.1]
    rfl

/-- Inversion of `executeMutation` for non-replayed completions: the cache
missed, the context resolved, a fresh PROCESSING row was inserted, the
row-lock count matched, and the run ended in exactly one of the two
committing branches — the persisted 409 INSUFFICIENT_FUNDS failure or the
posted double-entry success. -/
theorem executeMutation_ok_not_replayed {type : TransactionType}
    {input : WalletMutationRequest} {cached : Option CachedIdempotencyPayload}
    {freshId now : String} {st st' : DBState} {res : WalletMutationResult}
    (h : executeMutation type input cached freshId now st = .ok (st', res))
    (hrep : res.replayed = false) :
    cached = none ∧
    ∃ context st1,
      resolveContext st input.userId input.assetCode = .ok context ∧
      createOrReplayTransaction st type input context.assetTypeId
        (mutationSourceWalletId type context) (mutationDestinationWalletId type context)
        freshId now = .ok (st1, .created freshId now) ∧
      (lockWallets st1 [mutationSourceWalletId type context,
          mutationDestinationWalletId type context]).length =
        (sortUniqueWalletIds [mutationSourceWalletId type context,
          mutationDestinationWalletId type context]).length ∧
      ((getWalletBalance st1 (mutationSourceWalletId type context) context.assetTypeId <
          input.amount ∧
        res = ⟨409, insufficientFundsBody, false⟩ ∧
        st' = updateTransactionRow st1 freshId (fun t =>
          { t with status := .FAILED
                   errorCode := some "INSUFFICIENT_FUNDS"
                   responseCode := some 409
                   responseBody := some insufficientFundsBody })) ∨
       (¬ getWalletBalance st1 (mutationSourceWalletId type context) context.assetTypeId <
          input.amount ∧
        ∃ st3,
          bumpWalletVersions
            { st1 with ledger := st1.ledger ++
              [⟨freshId, mutationSourceWalletId type context, context.assetTypeId,
                .DEBIT, input.amount⟩,
               ⟨freshId, mutationDestinationWalletId type context, context.assetTypeId,
                .CREDIT, input.amount⟩] }
            (lockWallets st1 [mutationSourceWalletId type context,
              mutationDestinationWalletId type context]) = .ok st3 ∧
          res = ⟨200, .success
            { transactionId := freshId
              idempotencyKey := input.idempotencyKey
              operation := operationLabel type
              userId := input.userId
              assetCode := context.assetCode
              amount := intToString input.amount
              balance := intToString
                (getWalletBalance st3 context.userWalletId context.assetTypeId)
              fromWalletId := mutationSourceWalletId type context
              toWalletId := mutationDestinationWalletId type context
              createdAt := now }, false⟩ ∧
          st' = updateTransactionRow st3 freshId (fun t =>
            { t with status := .POSTED
                     responseCode := some 200
                     responseBody := some res.body }))) := by
  unfold executeMutation at h
  cases cached with
  | some cachedPayload =>
    dsimp only at h
    by_cases hfp : cachedPayload.requestFingerprint ≠ input.requestFingerprint
    · rw [if_pos hfp] at h
      simp at h
    · rw [if_neg hfp] at h
      simp only [Except.ok.injEq, Prod.mk.injEq] at h
      rw [← h.2] at hrep
      simp at hrep
  | none =>
    dsimp only at h
    refine ⟨rfl, ?_⟩
    cases hres : resolveContext st input.userId input.assetCode with
    | error e => rw [hres] at h; simp at h
    | ok context =>
      rw [hres] at h
      dsimp only at h
      refine ⟨context, ?_⟩
      cases hcr : createOrReplayTransaction st type input context.assetTypeId
          (mutationSourceWalletId type context)
          (mutationDestinationWalletId type context) freshId now with
      | error e => rw [hcr] at h; simp at h
      | ok pair =>
        obtain ⟨st1, cres⟩ := pair
        cases cres with
        | replay r =>
          rw [hcr] at h
          dsimp only at h
          simp only [Except.ok.injEq, Prod.mk.injEq] at h
          have hr := (createOrReplay_replay_inversion hcr).2
          rw [← h.2] at hrep
          rw [hr] at hrep
          cases hrep
        | created txId createdAt =>
          obtain ⟨-, rfl, rfl, -⟩ := createOrReplay_created_inversion hcr
          rw [hcr] at h
          dsimp only at h
          refine ⟨st1, rfl, rfl, ?_⟩
          by_cases hlen : (lockWallets st1 [mutationSourceWalletId type context,
              mutationDestinationWalletId type context]).length ≠
            (sortUniqueWalletIds [mutationSourceWalletId type context,
              mutationDestinationWalletId type context]).length
          · rw [if_pos hlen] at h
            simp at h
          · rw [if_neg hlen] at h
            refine ⟨by omega, ?_⟩
            by_cases hbal : getWalletBalance st1 (mutationSourceWalletId type context)
                context.assetTypeId < input.amount
            · rw [if_pos hbal] at h
              simp only [Except.ok.injEq, Prod.mk.injEq] at h
              left
              exact ⟨hbal, h.2.symm, h.1.symm⟩
            · rw [if_neg hbal] at h
              cases hbump : bumpWalletVersions
                  { st1 with ledger := st1.ledger ++
                    [⟨txId, mutationSourceWalletId type context, context.assetTypeId,
                      .DEBIT, input.amount⟩,
                     ⟨txId, mutationDestinationWalletId type context, context.assetTypeId,
                      .CREDIT, input.amount⟩] }
                  (lockWallets st1 [mutationSourceWalletId type context,
                    mutationDestinationWalletId type context]) with
              | error e => rw [hbump] at h; simp at h
              | ok st3 =>
                rw [hbump] at h
                dsimp only at h
                simp only [Except.ok.injEq, Prod.mk.injEq] at h
                right
                refine ⟨hbal, st3, rfl, h.2.symm, ?_⟩
                rw [← h.1, ← h.2]

/-- The signed contribution of one ledger entry to its wallet's balance. -/
def entryDelta (e : LedgerEntry) : Int :=
  match e.entryType with
  | .CREDIT => e.amount
  | .DEBIT => -e.amount

theorem balanceFold_eq_sum :
    ∀ (l : List LedgerEntry) (acc : Int),
      l.foldl (fun acc e =>
        match e.entryType with
        | .CREDIT => acc + e.amount
        | .DEBIT => acc - e.amount) acc = acc + (l.map entryDelta).sum
  | [], acc => by simp
  | e :: l, acc => by
    rw [List.foldl_cons, balanceFold_eq_sum l, List.map_cons, List.sum_cons]
    cases he : e.entryType <;> simp [entryDelta, he] <;> ring

theorem getWalletBalance_eq_sum (st : DBState) (walletId assetTypeId : String) :
    getWalletBalance st walletId assetTypeId =
      ((st.ledger.filter (fun e =>
        e.walletId == walletId && e.assetTypeId == assetTypeId)).map entryDelta).sum := by
  rw [getWalletBalance, balanceFold_eq_sum]
  simp

/-- Balance of a wallet after appending entries decomposes additively. -/
theorem getWalletBalance_append (st : DBState) (extra : List LedgerEntry)
    (walletId assetTypeId : String) :
    getWalletBalance { st with ledger := st.ledger ++ extra } walletId assetTypeId =
      getWalletBalance st walletId assetTypeId +
        ((extra.filter (fun e =>
          e.walletId == walletId && e.assetTypeId == assetTypeId)).map entryDelta).sum := by
  rw [getWalletBalance_eq_sum, getWalletBalance_eq_sum]
  show ((( st.ledger ++ extra).filter _).map entryDelta).sum = _
  rw [List.filter_append, List.map_append, List.sum_append]

/-- A successful optimistic bump leaves transactions and ledger unchanged. -/
theorem bumpWalletVersions_ok_inversion {st st3 : DBState}
    {lockedWallets : List (String × Nat)}
    (h : bumpWalletVersions st lockedWallets = .ok st3) :
    st3.transactions = st.transactions ∧ st3.ledger = st.ledger ∧
    st3.users = st.users ∧ st3.assetTypes = st.assetTypes := by
  unfold bumpWalletVersions at h
  dsimp only at h
  cases ha : assertOptimisticWalletUpdates (applyVersionBumps st.wallets lockedWallets).2 with
  | ok u => rw [ha] at h; simp only [Except.ok.injEq] at h; rw [← h]; exact ⟨rfl, rfl, rfl, rfl⟩
  | error e => rw [ha] at h; simp at h

theorem map_update_of_fresh (i : String) (f : Transaction → Transaction) :
    ∀ l : List Transaction, (∀ t ∈ l, t.id ≠ i) →
      l.map (fun t => if t.id == i then f t else t) = l
  | [], _ => rfl
  | t :: l, h => by
    rw [List.map_cons, if_neg (by simpa using h t (by simp)),
      map_update_of_fresh i f l (fun x hx => h x (by simp [hx]))]

/-- Updating a freshly appended row rewrites only that row. -/
theorem updateTransactionRow_append_fresh (st : DBState) (freshRow : Transaction)
    (i : String) (f : Transaction → Transaction) (hid : freshRow.id = i)
    (hfresh : ∀ t ∈ st.transactions, t.id ≠ i) :
    updateTransactionRow { st with transactions := st.transactions ++ [freshRow] }
      i f =
      { st with transactions := st.transactions ++ [f freshRow] } := by
  subst hid
  unfold updateTransactionRow
  simp only [List.map_append, List.map_cons, List.map_nil]
  rw [map_update_of_fresh freshRow.id f st.transactions hfresh]
  simp

/-! ## Claim C1 -/

/-- C1: every mutation that completes non-replayed with statusCode 200 posts
its transaction row and appends exactly two ledger entries for that
transaction — a DEBIT of the request amount on the row's source wallet and a
CREDIT of the same amount on its destination wallet, both with the row's
assetTypeId — and (given the generated row id is fresh) no other ledger
entry carries that transaction id. -/
theorem posted_mutation_double_entry {type : TransactionType}
    {input : WalletMutationRequest} {cached : Option CachedIdempotencyPayload}
    {freshId now : String} {st st' : DBState} {res : WalletMutationResult}
    (h : executeMutation type input cached freshId now st = .ok (st', res))
    (hrep : res.replayed = false)
    (h200 : res.statusCode = 200)
    (hfresh : ∀ e ∈ st.ledger, e.transactionId ≠ freshId) :
    ∃ t ∈ st'.transactions,
      t.id = freshId ∧ t.status = .POSTED ∧ t.responseCode = some 200 ∧
      t.amount = input.amount ∧
      st'.ledger = st.ledger ++
        [⟨t.id, t.sourceWalletId, t.assetTypeId, .DEBIT, t.amount⟩,
         ⟨t.id, t.destinationWalletId, t.assetTypeId, .CREDIT, t.amount⟩] ∧
      st'.ledger.filter (fun e => e.transactionId == t.id) =
        [⟨t.id, t.sourceWalletId, t.assetTypeId, .DEBIT, t.amount⟩,
         ⟨t.id, t.destinationWalletId, t.assetTypeId, .CREDIT, t.amount⟩] := by
  obtain ⟨-, context, st1, -, hcr, -, hcases⟩ := executeMutation_ok_not_replayed h hrep
  obtain ⟨-, -, -, hst1⟩ := createOrReplay_created_inversion hcr
  rcases hcases with ⟨-, hres409, -⟩ | ⟨-, st3, hbump, hres, hst'⟩
  · rw [hres409] at h200
    cases h200
  · obtain ⟨htx3, hled3, -, -⟩ := bumpWalletVersions_ok_inversion hbump
    -- the updated POSTED row
    refine ⟨{ processingRow type input context.assetTypeId
        (mutationSourceWalletId type context) (mutationDestinationWalletId type context)
        freshId now with
          status := .POSTED
          responseCode := some 200
          responseBody := some res.body }, ?_, rfl, rfl, rfl, rfl, ?_, ?_⟩
    · rw [hst']
      unfold updateTransactionRow
      simp only [List.mem_map]
      refine ⟨processingRow type input context.assetTypeId
        (mutationSourceWalletId type context) (mutationDestinationWalletId type context)
        freshId now, ?_, ?_⟩
      · rw [htx3, hst1]
        simp
      · rw [if_pos (by simp [processingRow])]
    · show st'.ledger = _
      rw [hst']
      show st3.ledger = _
      rw [hled3, hst1]
      rfl
    · rw [hst']
      show st3.ledger.filter _ = _
      rw [hled3, hst1]
      show (st.ledger ++ _).filter _ = _
      rw [List.filter_append]
      rw [List.filter_eq_nil_iff.mpr (fun e he => by
        simp only [Bool.not_eq_true, beq_eq_false_iff_ne]
        exact hfresh e he)]
      simp [processingRow]

/-- A seeded one-asset state: Alice with an empty GOLD wallet and a treasury
funded with 1000. -/
def exampleState : DBState :=
  ⟨[⟨"user-alice", "alice@example.com"⟩],
   [⟨"asset-gold", "GOLD", "Gold Coins"⟩],
   [⟨"wallet-alice-gold", some "user-alice", .USER, none, "asset-gold", 0⟩,
    ⟨"wallet-treasury-gold", none, .SYSTEM, some "TREASURY", "asset-gold", 0⟩],
   [], [⟨"tx0", "wallet-treasury-gold", "asset-gold", .CREDIT, 1000⟩]⟩

/-- The success body of a 100 GOLD topup for Alice on `exampleState`. -/
def examplePostedBody : WalletMutationSuccessPayload :=
  ⟨"tx1", "key-1", "topup", "user-alice", "GOLD", "100", "100",
   "wallet-treasury-gold", "wallet-alice-gold", "t0"⟩

/-- The state after posting that topup. -/
def examplePostedState : DBState :=
  ⟨[⟨"user-alice", "alice@example.com"⟩],
   [⟨"asset-gold", "GOLD", "Gold Coins"⟩],
   [⟨"wallet-alice-gold", some "user-alice", .USER, none, "asset-gold", 1⟩,
    ⟨"wallet-treasury-gold", none, .SYSTEM, some "TREASURY", "asset-gold", 1⟩],
   [⟨"tx1", "key-1", "fp-1", .TOPUP, .POSTED, 100, "asset-gold",
     "wallet-treasury-gold", "wallet-alice-gold", some 200,
     some (.success examplePostedBody), none, "t0"⟩],
   [⟨"tx0", "wallet-treasury-gold", "asset-gold", .CREDIT, 1000⟩,
    ⟨"tx1", "wallet-treasury-gold", "asset-gold", .DEBIT, 100⟩,
    ⟨"tx1", "wallet-alice-gold", "asset-gold", .CREDIT, 100⟩]⟩

/-- C1 witness: the double-entry conclusion evaluated on a posted topup. -/
theorem posted_mutation_double_entry_witness :
    executeMutation .TOPUP ⟨"user-alice", "gold", 100, "key-1", "fp-1"⟩ none "tx1" "t0"
        exampleState =
      .ok (examplePostedState, ⟨200, .success examplePostedBody, false⟩) ∧
    (∀ e ∈ exampleState.ledger, e.transactionId ≠ "tx1") ∧
    ∃ t ∈ examplePostedState.transactions,
      t.id = "tx1" ∧ t.status = .POSTED ∧ t.responseCode = some 200 ∧
      t.amount = (100 : Int) ∧
      examplePostedState.ledger = exampleState.ledger ++
        [⟨t.id, t.sourceWalletId, t.assetTypeId, .DEBIT, t.amount⟩,
         ⟨t.id, t.destinationWalletId, t.assetTypeId, .CREDIT, t.amount⟩] ∧
      examplePostedState.ledger.filter (fun e => e.transactionId == t.id) =
        [⟨t.id, t.sourceWalletId, t.assetTypeId, .DEBIT, t.amount⟩,
         ⟨t.id, t.destinationWalletId, t.assetTypeId, .CREDIT, t.amount⟩] :=
  ⟨by decide, by decide,
    posted_mutation_double_entry
      (show executeMutation .TOPUP ⟨"user-alice", "gold", 100, "key-1", "fp-1"⟩ none
          "tx1" "t0" exampleState =
        .ok (examplePostedState, ⟨200, .success examplePostedBody, false⟩) by decide)
      (by decide) (by decide) (by decide)⟩

/-- Computation of the INSUFFICIENT_FUNDS branch: when the cache misses, the
context resolves, the idempotency key is new, the generated row id is fresh,
both wallets row-lock, and the derived source balance is below the amount,
the engine persists the FAILED row and returns the 409 body, leaving the
ledger untouched. -/
theorem executeMutation_insufficient {type : TransactionType}
    {input : WalletMutationRequest} {freshId now : String} {st : DBState}
    {context : WalletExecutionContext}
    (hres : resolveContext st input.userId input.assetCode = .ok context)
    (hkey : st.transactions.any (fun t => t.idempotencyKey == input.idempotencyKey) = false)
    (hfreshtx : ∀ t ∈ st.transactions, t.id ≠ freshId)
    (hlen : (lockWallets st [mutationSourceWalletId type context,
        mutationDestinationWalletId type context]).length =
      (sortUniqueWalletIds [mutationSourceWalletId type context,
        mutationDestinationWalletId type context]).length)
    (hbal : getWalletBalance st (mutationSourceWalletId type context)
        context.assetTypeId < input.amount) :
    executeMutation type input none freshId now st =
      .ok ({ st with transactions := st.transactions ++
          [{ processingRow type input context.assetTypeId
              (mutationSourceWalletId type context)
              (mutationDestinationWalletId type context) freshId now with
              status := .FAILED
              errorCode := some "INSUFFICIENT_FUNDS"
              responseCode := some 409
              responseBody := some insufficientFundsBody }] },
        ⟨409, insufficientFundsBody, false⟩) := by
  unfold executeMutation
  dsimp only
  rw [hres]
  dsimp only
  have hcr : createOrReplayTransaction st type input context.assetTypeId
      (mutationSourceWalletId type context) (mutationDestinationWalletId type context)
      freshId now =
      .ok ({ st with transactions := st.transactions ++
        [processingRow type input context.assetTypeId
          (mutationSourceWalletId type context)
          (mutationDestinationWalletId type context) freshId now] },
        .created freshId now) := by
    unfold createOrReplayTransaction
    rw [if_neg (by rw [hkey]; exact Bool.false_ne_true)]
    rfl
  rw [hcr]
  dsimp only
  have hlock1 : lockWallets { st with transactions := st.transactions ++
      [processingRow type input context.assetTypeId
        (mutationSourceWalletId type context)
        (mutationDestinationWalletId type context) freshId now] }
      [mutationSourceWalletId type context, mutationDestinationWalletId type context] =
      lockWallets st
        [mutationSourceWalletId type context, mutationDestinationWalletId type context] := rfl
  rw [hlock1]
  rw [if_neg (by omega)]
  have hbal1 : getWalletBalance { st with transactions := st.transactions ++
      [processingRow type input context.assetTypeId
        (mutationSourceWalletId type context)
        (mutationDestinationWalletId type context) freshId now] }
      (mutationSourceWalletId type context) context.assetTypeId =
      getWalletBalance st (mutationSourceWalletId type context) context.assetTypeId := rfl
  rw [hbal1, if_pos hbal]
  rw [updateTransactionRow_append_fresh st
    (processingRow type input context.assetTypeId
      (mutationSourceWalletId type context)
      (mutationDestinationWalletId type context) freshId now) freshId _ rfl hfreshtx]
  rfl

/-! ## Claim C2 -/

/-- C2: a mutation whose derived source balance is below the requested
amount commits a FAILED transaction row carrying errorCode
INSUFFICIENT_FUNDS, responseCode 409 and the 409 error body, returns that
same body as the result, and leaves the ledger unchanged. -/
theorem insufficient_funds_terminal_failed {type : TransactionType}
    {input : WalletMutationRequest} {freshId now : String} {st : DBState}
    {context : WalletExecutionContext}
    (hres : resolveContext st input.userId input.assetCode = .ok context)
    (hkey : st.transactions.any (fun t => t.idempotencyKey == input.idempotencyKey) = false)
    (hfreshtx : ∀ t ∈ st.transactions, t.id ≠ freshId)
    (hlen : (lockWallets st [mutationSourceWalletId type context,
        mutationDestinationWalletId type context]).length =
      (sortUniqueWalletIds [mutationSourceWalletId type context,
        mutationDestinationWalletId type context]).length)
    (hbal : getWalletBalance st (mutationSourceWalletId type context)
        context.assetTypeId < input.amount) :
    ∃ st', executeMutation type input none freshId now st =
        .ok (st', ⟨409, insufficientFundsBody, false⟩) ∧
      st'.ledger = st.ledger ∧
      ∃ t ∈ st'.transactions, t.id = freshId ∧ t.status = .FAILED ∧
        t.errorCode = some "INSUFFICIENT_FUNDS" ∧ t.responseCode = some 409 ∧
        t.responseBody = some insufficientFundsBody := by
  refine ⟨_, executeMutation_insufficient hres hkey hfreshtx hlen hbal, rfl, ?_⟩
  refine ⟨{ processingRow type input context.assetTypeId
      (mutationSourceWalletId type context)
      (mutationDestinationWalletId type context) freshId now with
        status := .FAILED
        errorCode := some "INSUFFICIENT_FUNDS"
        responseCode := some 409
        responseBody := some insufficientFundsBody }, ?_, rfl, rfl, rfl, rfl, rfl⟩
  simp

/-- C2 witness: Alice spends 5 GOLD from an empty wallet. -/
theorem insufficient_funds_terminal_failed_witness :
    getWalletBalance exampleState "wallet-alice-gold" "asset-gold" < (5 : Int) ∧
    ∃ st', executeMutation .SPEND ⟨"user-alice", "gold", 5, "key-1", "fp-1"⟩ none
        "tx1" "t0" exampleState = .ok (st', ⟨409, insufficientFundsBody, false⟩) ∧
      st'.ledger = exampleState.ledger ∧
      ∃ t ∈ st'.transactions, t.id = "tx1" ∧ t.status = .FAILED ∧
        t.errorCode = some "INSUFFICIENT_FUNDS" ∧ t.responseCode = some 409 ∧
        t.responseBody = some insufficientFundsBody :=
  ⟨by decide,
    insufficient_funds_terminal_failed
      (show resolveContext exampleState "user-alice" "gold" =
        .ok ⟨"asset-gold", "GOLD", "wallet-alice-gold", "wallet-treasury-gold"⟩ by decide)
      (by decide) (by decide) (by decide) (by decide)⟩

/-! ## Claim C8 -/

theorem getWalletBalance_congr {st₁ st₂ : DBState} (hl : st₁.ledger = st₂.ledger)
    (walletId assetTypeId : String) :
    getWalletBalance st₁ walletId assetTypeId =
      getWalletBalance st₂ walletId assetTypeId := by
  unfold getWalletBalance
  rw [hl]

/-- C8: the source-balance check runs for every mutation type — TOPUP and
BONUS debit the TREASURY system wallet under the same check as SPEND debits
a user wallet — so a non-replayed 200 completion implies the pre-state
source balance covered the amount and the post-state source balance is
still non-negative; and a TOPUP against an underfunded treasury fails with
the persisted 409 INSUFFICIENT_FUNDS outcome, leaving the ledger
unchanged. -/
theorem balance_check_uniform_solvency :
    (∀ (type : TransactionType) (input : WalletMutationRequest)
        (cached : Option CachedIdempotencyPayload) (freshId now : String)
        (st st' : DBState) (res : WalletMutationResult),
      executeMutation type input cached freshId now st = .ok (st', res) →
      res.replayed = false → res.statusCode = 200 → 0 < input.amount →
      ∃ context, resolveContext st input.userId input.assetCode = .ok context ∧
        input.amount ≤ getWalletBalance st (mutationSourceWalletId type context)
          context.assetTypeId ∧
        0 ≤ getWalletBalance st' (mutationSourceWalletId type context)
          context.assetTypeId) ∧
    (∀ (input : WalletMutationRequest) (freshId now : String) (st : DBState)
        (context : WalletExecutionContext),
      resolveContext st input.userId input.assetCode = .ok context →
      st.transactions.any (fun t => t.idempotencyKey == input.idempotencyKey) = false →
      (∀ t ∈ st.transactions, t.id ≠ freshId) →
      (lockWallets st [context.treasuryWalletId, context.userWalletId]).length =
        (sortUniqueWalletIds [context.treasuryWalletId, context.userWalletId]).length →
      getWalletBalance st context.treasuryWalletId context.assetTypeId < input.amount →
      ∃ st', executeMutation .TOPUP input none freshId now st =
          .ok (st', ⟨409, insufficientFundsBody, false⟩) ∧
        st'.ledger = st.ledger) := by
  constructor
  · intro type input cached freshId now st st' res h hrep h200 hpos
    obtain ⟨-, context, st1, hresolve, hcr, -, hcases⟩ :=
      executeMutation_ok_not_replayed h hrep
    obtain ⟨-, -, -, hst1⟩ := createOrReplay_created_inversion hcr
    rcases hcases with ⟨-, hres409, -⟩ | ⟨hbalok, st3, hbump, -, hst'⟩
    · rw [hres409] at h200
      cases h200
    · refine ⟨context, hresolve, ?_, ?_⟩
      · have hpre := Int.not_lt.mp hbalok
        subst hst1
        exact hpre
      · subst hst1
        have hpre := Int.not_lt.mp hbalok
        obtain ⟨-, hled3, -, -⟩ := bumpWalletVersions_ok_inversion hbump
        subst hst'
        have heq1 : getWalletBalance (updateTransactionRow st3 freshId (fun t =>
            { t with status := .POSTED
                     responseCode := some 200
                     responseBody := some res.body }))
            (mutationSourceWalletId type context) context.assetTypeId =
            getWalletBalance st3 (mutationSourceWalletId type context)
              context.assetTypeId := rfl
        rw [heq1, getWalletBalance_congr hled3, getWalletBalance_append]
        by_cases hdd : mutationDestinationWalletId type context =
            mutationSourceWalletId type context
        · have hfil : ([⟨freshId, mutationSourceWalletId type context,
              context.assetTypeId, .DEBIT, input.amount⟩,
              ⟨freshId, mutationDestinationWalletId type context,
              context.assetTypeId, .CREDIT, input.amount⟩] : List LedgerEntry).filter
              (fun e => e.walletId == mutationSourceWalletId type context &&
                e.assetTypeId == context.assetTypeId) =
              [⟨freshId, mutationSourceWalletId type context,
                context.assetTypeId, .DEBIT, input.amount⟩,
               ⟨freshId, mutationDestinationWalletId type context,
                context.assetTypeId, .CREDIT, input.amount⟩] := by
            simp [List.filter, hdd]
          rw [hfil]
          simp only [List.map_cons, List.map_nil, entryDelta, List.sum_cons,
            List.sum_nil]
          omega
        · have hb : (mutationDestinationWalletId type context ==
              mutationSourceWalletId type context) = false := by
            simp [hdd]
          have hfil : ([⟨freshId, mutationSourceWalletId type context,
              context.assetTypeId, .DEBIT, input.amount⟩,
              ⟨freshId, mutationDestinationWalletId type context,
              context.assetTypeId, .CREDIT, input.amount⟩] : List LedgerEntry).filter
              (fun e => e.walletId == mutationSourceWalletId type context &&
                e.assetTypeId == context.assetTypeId) =
              [⟨freshId, mutationSourceWalletId type context,
                context.assetTypeId, .DEBIT, input.amount⟩] := by
            simp [List.filter, hb]
          rw [hfil]
          simp only [List.map_cons, List.map_nil, entryDelta, List.sum_cons,
            List.sum_nil]
          omega
  · intro input freshId now st context hres hkey hfreshtx hlen hbal
    exact ⟨_, executeMutation_insufficient hres hkey hfreshtx hlen hbal, rfl⟩

/-- C8 witness: a posted topup satisfies the solvency bounds, and a topup of
2000 against a treasury holding 1000 fails with INSUFFICIENT_FUNDS. -/
theorem balance_check_uniform_solvency_witness :
    (∃ context, resolveContext exampleState "user-alice" "gold" = .ok context ∧
      (100 : Int) ≤ getWalletBalance exampleState
        (mutationSourceWalletId .TOPUP context) context.assetTypeId ∧
      0 ≤ getWalletBalance examplePostedState
        (mutationSourceWalletId .TOPUP context) context.assetTypeId) ∧
    (∃ st', executeMutation .TOPUP ⟨"user-alice", "gold", 2000, "key-1", "fp-1"⟩
        none "tx1" "t0" exampleState =
        .ok (st', ⟨409, insufficientFundsBody, false⟩) ∧
      st'.ledger = exampleState.ledger) :=
  ⟨balance_check_uniform_solvency.1 .TOPUP ⟨"user-alice", "gold", 100, "key-1", "fp-1"⟩
      none "tx1" "t0" exampleState examplePostedState
      ⟨200, .success examplePostedBody, false⟩ (by decide) (by decide) (by decide)
      (by decide),
    balance_check_uniform_solvency.2 ⟨"user-alice", "gold", 2000, "key-1", "fp-1"⟩
      "tx1" "t0" exampleState
      ⟨"asset-gold", "GOLD", "wallet-alice-gold", "wallet-treasury-gold"⟩
      (by decide) (by decide) (by decide) (by decide) (by decide)⟩

/-! ## Claim C3 -/

/-- C3: on a unique violation of `idempotencyKey`, the engine loads the
existing row and branches in order: a different `requestHash` fails with 409
IDEMPOTENCY_KEY_REUSED_WITH_DIFFERENT_REQUEST; a NULL `responseCode` fails
with 409 REQUEST_ALREADY_IN_PROGRESS; otherwise the stored
`(responseCode, responseBody)` is returned as a replay with
`replayed = true`.  The well-formedness hypothesis is the spec's row
invariant that `responseCode` and `responseBody` are set together. -/
theorem createOrReplay_unique_violation_branches {st : DBState}
    {type : TransactionType} {input : WalletMutationRequest}
    {aid src dst freshId now : String} {existing : Transaction}
    (hfind : st.transactions.find? (fun t => t.idempotencyKey == input.idempotencyKey) =
      some existing)
    (hwf : existing.responseCode = none ↔ existing.responseBody = none) :
    (existing.requestHash ≠ input.requestFingerprint →
      createOrReplayTransaction st type input aid src dst freshId now =
        .error ⟨409, "IDEMPOTENCY_KEY_REUSED_WITH_DIFFERENT_REQUEST",
          "Idempotency-Key has already been used with a different request payload"⟩) ∧
    (existing.requestHash = input.requestFingerprint →
      existing.responseCode = none →
      createOrReplayTransaction st type input aid src dst freshId now =
        .error ⟨409, "REQUEST_ALREADY_IN_PROGRESS",
          "A request with this Idempotency-Key is currently in progress"⟩) ∧
    (existing.requestHash = input.requestFingerprint →
      ∀ rc, existing.responseCode = some rc →
      ∃ rb, existing.responseBody = some rb ∧
        createOrReplayTransaction st type input aid src dst freshId now =
          .ok (st, .replay ⟨rc, rb, true⟩)) := by
  have hp := List.find?_some hfind
  have hany : st.transactions.any
      (fun t => t.idempotencyKey == input.idempotencyKey) = true :=
    List.any_eq_true.mpr ⟨existing, List.mem_of_find?_eq_some hfind, hp⟩
  refine ⟨?_, ?_, ?_⟩
  · intro hne
    unfold createOrReplayTransaction
    rw [if_pos hany, hfind]
    dsimp only
    rw [if_pos hne]
  · intro heq hrc
    unfold createOrReplayTransaction
    rw [if_pos hany, hfind]
    dsimp only
    rw [if_neg (fun hcon => hcon heq), hrc]
  · intro heq rc hrc
    cases hrb : existing.responseBody with
    | none =>
      rw [hwf.mpr hrb] at hrc
      cases hrc
    | some rb =>
      refine ⟨rb, rfl, ?_⟩
      unfold createOrReplayTransaction
      rw [if_pos hany, hfind]
      dsimp only
      rw [if_neg (fun hcon => hcon heq), hrc, hrb]

/-- A state holding one terminal POSTED transaction row for key `key-1`. -/
def exampleReplayState : DBState :=
  ⟨[], [], [], [⟨"tx9", "key-1", "fp-1", .TOPUP, .POSTED, 100, "asset-gold",
    "wallet-treasury-gold", "wallet-alice-gold", some 200,
    some (.success examplePostedBody), none, "t0"⟩], []⟩

/-- C3 witness: the three branches evaluated against the stored row — a
different fingerprint is rejected, and the matching fingerprint replays the
stored 200 response. -/
theorem createOrReplay_unique_violation_branches_witness :
    (createOrReplayTransaction exampleReplayState .TOPUP
        ⟨"user-alice", "gold", 100, "key-1", "fp-2"⟩ "asset-gold"
        "wallet-treasury-gold" "wallet-alice-gold" "tx10" "t1" =
      .error ⟨409, "IDEMPOTENCY_KEY_REUSED_WITH_DIFFERENT_REQUEST",
        "Idempotency-Key has already been used with a different request payload"⟩) ∧
    ∃ rb, (⟨"tx9", "key-1", "fp-1", .TOPUP, .POSTED, 100, "asset-gold",
        "wallet-treasury-gold", "wallet-alice-gold", some 200,
        some (.success examplePostedBody), none, "t0"⟩ : Transaction).responseBody =
        some rb ∧
      createOrReplayTransaction exampleReplayState .TOPUP
          ⟨"user-alice", "gold", 100, "key-1", "fp-1"⟩ "asset-gold"
          "wallet-treasury-gold" "wallet-alice-gold" "tx10" "t1" =
        .ok (exampleReplayState, .replay ⟨200, rb, true⟩) :=
  ⟨(createOrReplay_unique_violation_branches
      (show exampleReplayState.transactions.find? (fun t => t.idempotencyKey ==
          (⟨"user-alice", "gold", 100, "key-1", "fp-2"⟩ :
            WalletMutationRequest).idempotencyKey) =
        some ⟨"tx9", "key-1", "fp-1", .TOPUP, .POSTED, 100, "asset-gold",
          "wallet-treasury-gold", "wallet-alice-gold", some 200,
          some (.success examplePostedBody), none, "t0"⟩ by decide)
      (by decide)).1 (by decide),
    (createOrReplay_unique_violation_branches
      (show exampleReplayState.transactions.find? (fun t => t.idempotencyKey ==
          (⟨"user-alice", "gold", 100, "key-1", "fp-1"⟩ :
            WalletMutationRequest).idempotencyKey) =
        some ⟨"tx9", "key-1", "fp-1", .TOPUP, .POSTED, 100, "asset-gold",
          "wallet-treasury-gold", "wallet-alice-gold", some 200,
          some (.success examplePostedBody), none, "t0"⟩ by decide)
      (by decide)).2.2 rfl 200 (by decide)⟩

/-! ## Claim C5 -/

/-- C5: TOPUP and BONUS move value from the TREASURY system wallet of the
requested asset to the user's wallet for that asset; SPEND moves value from
the user's wallet to the TREASURY wallet.  The resolved context binds
`userWalletId` to a USER wallet of the requesting user for the asset and
`treasuryWalletId` to the SYSTEM wallet with systemCode TREASURY for the
asset. -/
theorem counterparty_selection {st : DBState} {userId assetCode : String}
    {context : WalletExecutionContext}
    (h : resolveContext st userId assetCode = .ok context) :
    mutationSourceWalletId .TOPUP context = context.treasuryWalletId ∧
    mutationDestinationWalletId .TOPUP context = context.userWalletId ∧
    mutationSourceWalletId .BONUS context = context.treasuryWalletId ∧
    mutationDestinationWalletId .BONUS context = context.userWalletId ∧
    mutationSourceWalletId .SPEND context = context.userWalletId ∧
    mutationDestinationWalletId .SPEND context = context.treasuryWalletId ∧
    (∃ assetType ∈ st.assetTypes, assetType.id = context.assetTypeId ∧
      assetType.code = context.assetCode ∧ assetType.code = jsToUpper assetCode) ∧
    (∃ w ∈ st.wallets, w.id = context.userWalletId ∧ w.ownerType = .USER ∧
      w.userId = some userId ∧ w.assetTypeId = context.assetTypeId) ∧
    (∃ w ∈ st.wallets, w.id = context.treasuryWalletId ∧ w.ownerType = .SYSTEM ∧
      w.systemCode = some TREASURY_SYSTEM_CODE ∧
      w.assetTypeId = context.assetTypeId) := by
  unfold resolveContext at h
  dsimp only at h
  cases hasset : st.assetTypes.find? (fun assetType => assetType.code == jsToUpper assetCode) with
  | none => rw [hasset] at h; cases h
  | some assetType =>
    rw [hasset] at h
    dsimp only at h
    cases huw : st.wallets.find? (fun w =>
        decide (w.ownerType = .USER ∧ w.userId = some userId ∧
          w.assetTypeId = assetType.id)) with
    | none => rw [huw] at h; cases h
    | some userWallet =>
      rw [huw] at h
      dsimp only at h
      cases htw : st.wallets.find? (fun w =>
          decide (w.ownerType = .SYSTEM ∧ w.systemCode = some TREASURY_SYSTEM_CODE ∧
            w.assetTypeId = assetType.id)) with
      | none => rw [htw] at h; cases h
      | some treasuryWallet =>
        rw [htw] at h
        simp only [Except.ok.injEq] at h
        subst h
        refine ⟨rfl, rfl, rfl, rfl, rfl, rfl, ?_, ?_, ?_⟩
        · refine ⟨assetType, List.mem_of_find?_eq_some hasset, rfl, rfl, ?_⟩
          have := List.find?_some hasset
          simpa using this
        · have hp := List.find?_some huw
          rw [decide_eq_true_eq] at hp
          exact ⟨userWallet, List.mem_of_find?_eq_some huw, rfl, hp.1, hp.2.1, hp.2.2⟩
        · have hp := List.find?_some htw
          rw [decide_eq_true_eq] at hp
          exact ⟨treasuryWallet, List.mem_of_find?_eq_some htw, rfl, hp.1, hp.2.1, hp.2.2⟩

/-- C5 witness: the counterparty selection on the seeded example state. -/
theorem counterparty_selection_witness :
    mutationSourceWalletId .TOPUP
        ⟨"asset-gold", "GOLD", "wallet-alice-gold", "wallet-treasury-gold"⟩ =
      "wallet-treasury-gold" ∧
    mutationSourceWalletId .SPEND
        ⟨"asset-gold", "GOLD", "wallet-alice-gold", "wallet-treasury-gold"⟩ =
      "wallet-alice-gold" ∧
    (∃ w ∈ exampleState.wallets, w.id = "wallet-treasury-gold" ∧
      w.ownerType = .SYSTEM ∧ w.systemCode = some TREASURY_SYSTEM_CODE ∧
      w.assetTypeId = "asset-gold") :=
  let hctx := counterparty_selection
    (show resolveContext exampleState "user-alice" "gold" =
      .ok ⟨"asset-gold", "GOLD", "wallet-alice-gold", "wallet-treasury-gold"⟩ by decide)
  ⟨hctx.1, hctx.2.2.2.2.1, hctx.2.2.2.2.2.2.2.2⟩

/-! ## Claim C10 -/

/-- C10: `getBalance` without a filter reports every wallet the user owns,
including wallets with no ledger entries at all: such a wallet's asset
appears in the response with balance "0" (the LEFT JOIN row survives and
`COALESCE` turns the empty aggregate into 0) rather than being omitted. -/
theorem getBalance_includes_empty_wallet {st : DBState} {userId : String}
    {u : UserRow} {w : Wallet} {a : AssetType}
    (hu : st.users.find? (fun x => x.id == userId) = some u)
    (hw : w ∈ st.wallets) (hwo : w.ownerType = .USER) (hwu : w.userId = some userId)
    (ha : st.assetTypes.find? (fun x => x.id == w.assetTypeId) = some a)
    (hempty : ∀ e ∈ st.ledger, ¬(e.walletId = w.id ∧ e.assetTypeId = w.assetTypeId)) :
    ∃ resp, getBalance st userId none = .ok resp ∧ resp.userId = userId ∧
      (⟨a.code, a.name, "0"⟩ : WalletBalanceEntry) ∈ resp.balances := by
  unfold getBalance
  rw [hu]
  dsimp only
  refine ⟨_, rfl, rfl, ?_⟩
  have hbal0 : getWalletBalance st w.id w.assetTypeId = 0 := by
    unfold getWalletBalance
    rw [List.filter_eq_nil_iff.mpr (fun e he => by
      simp only [Bool.not_eq_true, Bool.and_eq_false_iff, beq_eq_false_iff_ne]
      have := hempty e he
      by_cases h1 : e.walletId = w.id
      · exact Or.inr (fun h2 => this ⟨h1, h2⟩)
      · exact Or.inl h1)]
    rfl
  have hrow : (a.code, a.name, (0 : Int)) ∈
      (st.wallets.filter (fun x =>
        x.ownerType == WalletOwnerType.USER && x.userId == some userId)).filterMap
      (fun x => (st.assetTypes.find? (fun y => y.id == x.assetTypeId)).bind (fun y =>
        some (y.code, y.name, getWalletBalance st x.id x.assetTypeId))) := by
    apply List.mem_filterMap.mpr
    refine ⟨w, ?_, ?_⟩
    · apply List.mem_filter.mpr
      refine ⟨hw, ?_⟩
      simp [hwo, hwu]
    · rw [ha, hbal0]
      rfl
  simp only [List.mem_map]
  refine ⟨(a.code, a.name, (0 : Int)), ?_, ?_⟩
  · rw [List.mem_insertionSort]
    exact hrow
  · rfl

/-- C10 witness: Alice's GOLD wallet has no ledger entries in
`exampleState`, yet the unfiltered balance response lists GOLD with balance
"0". -/
theorem getBalance_includes_empty_wallet_witness :
    (∀ e ∈ exampleState.ledger,
      ¬(e.walletId = "wallet-alice-gold" ∧ e.assetTypeId = "asset-gold")) ∧
    ∃ resp, getBalance exampleState "user-alice" none = .ok resp ∧
      resp.userId = "user-alice" ∧
      (⟨"GOLD", "Gold Coins", "0"⟩ : WalletBalanceEntry) ∈ resp.balances :=
  ⟨by decide,
    getBalance_includes_empty_wallet
      (show exampleState.users.find? (fun x => x.id == "user-alice") =
        some ⟨"user-alice", "alice@example.com"⟩ by decide)
      (show (⟨"wallet-alice-gold", some "user-alice", .USER, none, "asset-gold", 0⟩ :
        Wallet) ∈ exampleState.wallets by decide)
      (by decide) (by decide)
      (show exampleState.assetTypes.find? (fun x => x.id == "asset-gold") =
        some ⟨"asset-gold", "GOLD", "Gold Coins"⟩ by decide)
      (by decide)⟩

/-! ## Embedding of `src/utils/request-fingerprint.ts`

JSON values as delivered by the body parser.  Numbers are modelled as
integers (the bodies this service fingerprints carry integer amounts and
string fields; fractional doubles are outside the model), objects as
insertion-ordered field lists as in JavaScript. -/

inductive Json where
  | null
  | bool (b : Bool)
  | num (n : Int)
  | str (s : String)
  | arr (items : List Json)
  | obj (fields : List (String × Json))

/-- The double-quote character. -/
def quoteChar : Char := Char.ofNat 34

/-- The backslash character. -/
def backslashChar : Char := Char.ofNat 92

/-- The opening curly bracket. -/
def lbraceChar : Char := Char.ofNat 123

/-- The closing curly bracket. -/
def rbraceChar : Char := Char.ofNat 125

/-- Lowercase hex digit of a nibble, as `JSON.stringify` uses in `\u00XX`
escapes. -/
def hexDigitChar (n : Nat) : Char :=
  if n < 10 then Char.ofNat (48 + n) else Char.ofNat (87 + n)

/-- ASCII decimal digit test. -/
def isDigitChar (c : Char) : Bool :=
  48 ≤ c.toNat && c.toNat ≤ 57

/-- `JSON.stringify` escaping of one character inside a string literal. -/
def escapeChar (c : Char) : List Char :=
  if c = quoteChar then [backslashChar, quoteChar]
  else if c = backslashChar then [backslashChar, backslashChar]
  else if c = Char.ofNat 8 then [backslashChar, 'b']
  else if c = Char.ofNat 9 then [backslashChar, 't']
  else if c = Char.ofNat 10 then [backslashChar, 'n']
  else if c = Char.ofNat 12 then [backslashChar, 'f']
  else if c = Char.ofNat 13 then [backslashChar, 'r']
  else if c.toNat < 32 then
    [backslashChar, 'u', '0', '0', hexDigitChar (c.toNat / 16), hexDigitChar (c.toNat % 16)]
  else [c]

/-- Escape every character of a string body. -/
def escapeChars : List Char → List Char
  | [] => []
  | c :: cs => escapeChar c ++ escapeChars cs

/-- `JSON.stringify` of a string: quoted and escaped. -/
def printStringChars (s : String) : List Char :=
  quoteChar :: escapeChars s.data ++ [quoteChar]

/-! Serialisation of JSON values without reordering: primitives and null as
their literal form, arrays recursively in order, objects recursively in
field order.  `stableStringify` composes this with the canonical key sort
below. -/
mutual

def printJson : Json → List Char
  | .null => ['n', 'u', 'l', 'l']
  | .num n => intToChars n
  | .bool true => ['t', 'r', 'u', 'e']
  | .str s => printStringChars s
  | .bool false => ['f', 'a', 'l', 's', 'e']
  | .arr items => '[' :: printItems items ++ [']']
  | .obj fields => lbraceChar :: printFields fields ++ [rbraceChar]

def printItems : List Json → List Char
  | [] => []
  | x :: xs => printJson x ++ printItemsTail xs

def printItemsTail : List Json → List Char
  | [] => []
  | x :: xs => ',' :: (printJson x ++ printItemsTail xs)

def printFields : List (String × Json) → List Char
  | [] => []
  | (k, v) :: fs => (printStringChars k ++ ':' :: printJson v) ++ printFieldsTail fs

def printFieldsTail : List (String × Json) → List Char
  | [] => []
  | (k, v) :: fs =>
    ',' :: ((printStringChars k ++ ':' :: printJson v) ++ printFieldsTail fs)

end

/-! Structural size of a JSON value, the parser's fuel measure. -/
mutual

def jsonSize : Json → Nat
  | .null => 1
  | .bool _ => 1
  | .num _ => 1
  | .str _ => 1
  | .arr items => 1 + itemsSize items
  | .obj fields => 1 + fieldsSize fields

def itemsSize : List Json → Nat
  | [] => 1
  | x :: xs => 1 + jsonSize x + itemsSize xs

def fieldsSize : List (String × Json) → Nat
  | [] => 1
  | (_, v) :: fs => 1 + jsonSize v + fieldsSize fs

end

/-! Well-formedness of a decoded body: every object's keys are pairwise
distinct, as `JSON.parse` and the body parser guarantee. -/
mutual

def jsonWf : Json → Bool
  | .null => true
  | .bool _ => true
  | .num _ => true
  | .str _ => true
  | .arr items => itemsWf items
  | .obj fields => decide ((fields.map Prod.fst).Nodup) && fieldsWf fields

def itemsWf : List Json → Bool
  | [] => true
  | x :: xs => jsonWf x && itemsWf xs

def fieldsWf : List (String × Json) → Bool
  | [] => true
  | (_, v) :: fs => jsonWf v && fieldsWf fs

end

/-- The field order the source's entry sort produces: ascending keys under
`localeCompare`. -/
def fieldLocaleLe (a b : String × Json) : Prop :=
  localeLe a.1 b.1

instance fieldLocaleLe.decRel : DecidableRel fieldLocaleLe :=
  fun a b => localeLe.decRel a.1 b.1

/-- Ascending keys under raw code-point order, the spec's canonical field
order. -/
def fieldCpLe (a b : String × Json) : Prop :=
  codePointLe a.1 b.1

instance fieldCpLe.decRel (a b : String × Json) : Decidable (fieldCpLe a b) :=
  codePointLe.decRel a.1 b.1

/-! Recursive canonicalisation of a JSON value under a field order: sort
every object's entries by key after canonicalising the values. -/
mutual

def canonBy (le : String × Json → String × Json → Prop) [DecidableRel le] : Json → Json
  | .null => .null
  | .bool b => .bool b
  | .num n => .num n
  | .str s => .str s
  | .arr items => .arr (canonItems le items)
  | .obj fields => .obj (List.insertionSort le (canonFields le fields))

def canonItems (le : String × Json → String × Json → Prop) [DecidableRel le] :
    List Json → List Json
  | [] => []
  | x :: xs => canonBy le x :: canonItems le xs

def canonFields (le : String × Json → String × Json → Prop) [DecidableRel le] :
    List (String × Json) → List (String × Json)
  | [] => []
  | (k, v) :: fs => (k, canonBy le v) :: canonFields le fs

end

/-- The canonical form the source's serialisation realises: every object's
entries sorted ascending by `localeCompare` on keys. -/
def canonLoc : Json → Json :=
  canonBy fieldLocaleLe

/-- Modelled from the spec: the canonical form with keys «sorted
lexicographically by code-point».  Two well-formed JSON values denote the
same structural value exactly when their `canonCP` forms are equal, so this
is the reference notion of structural equality for C4. -/
def canonCP : Json → Json :=
  canonBy fieldCpLe

/-- Embedding of `stableStringify`: the source sorts each object's entries
by `localeCompare` at serialisation time, which factors as canonicalising
every level first (`canonLoc`) and then printing without reordering. -/
def stableStringify (input : Json) : List Char :=
  printJson (canonLoc input)

/-- Embedding of `buildRequestFingerprint`: the canonical material
`UPPERCASE(method)|path|stableStringify(body)`.  The source sha256-hexdigests
this material; the digest step is injectivity-abstracted here, so the
material itself stands for the fingerprint. -/
def buildRequestFingerprint (method path : String) (body : Json) : List Char :=
  ((jsToUpper method).data ++ '|' :: path.data ++ ['|']) ++ stableStringify body

/-! The fuelled canonical-JSON reader used to invert `printJson`.  It exists
only for the injectivity proof: parsing a printed value returns the value
and the unconsumed rest of the input. -/

/-- Value of a run of decimal digits. -/
def digitsToNat (ds : List Char) : Nat :=
  ds.foldl (fun acc c => acc * 10 + (c.toNat - 48)) 0

/-- Read a non-empty run of decimal digits. -/
def parseNatPart (cs : List Char) : Option (Nat × List Char) :=
  let ds := cs.takeWhile isDigitChar
  if ds.isEmpty then none else some (digitsToNat ds, cs.dropWhile isDigitChar)

/-- Value of a hex digit character. -/
def hexVal (c : Char) : Option Nat :=
  if 48 ≤ c.toNat ∧ c.toNat ≤ 57 then some (c.toNat - 48)
  else if 97 ≤ c.toNat ∧ c.toNat ≤ 102 then some (c.toNat - 87)
  else if 65 ≤ c.toNat ∧ c.toNat ≤ 70 then some (c.toNat - 55)
  else none

/-- Read a string body up to its closing quote, undoing `escapeChar`;
`acc` holds the characters read so far, reversed. -/
def parseStringBody : List Char → List Char → Option (String × List Char)
  | [], _ => none
  | c :: rest, acc =>
    if c = quoteChar then some (String.mk acc.reverse, rest)
    else if c = backslashChar then
      match rest with
      | [] => none
      | e :: rest2 =>
        if e = quoteChar then parseStringBody rest2 (quoteChar :: acc)
        else if e = backslashChar then parseStringBody rest2 (backslashChar :: acc)
        else if e = 'b' then parseStringBody rest2 (Char.ofNat 8 :: acc)
        else if e = 't' then parseStringBody rest2 (Char.ofNat 9 :: acc)
        else if e = 'n' then parseStringBody rest2 (Char.ofNat 10 :: acc)
        else if e = 'f' then parseStringBody rest2 (Char.ofNat 12 :: acc)
        else if e = 'r' then parseStringBody rest2 (Char.ofNat 13 :: acc)
        else if e = 'u' then
          match rest2 with
          | h1 :: h2 :: h3 :: h4 :: rest3 =>
            match hexVal h1, hexVal h2, hexVal h3, hexVal h4 with
            | some v1, some v2, some v3, some v4 =>
              parseStringBody rest3
                (Char.ofNat (((v1 * 16 + v2) * 16 + v3) * 16 + v4) :: acc)
            | _, _, _, _ => none
          | _ => none
        else none
    else parseStringBody rest (c :: acc)

/-- Match an exact character sequence. -/
def expectChars : List Char → List Char → Option (List Char)
  | rest, [] => some rest
  | c :: rest, e :: es => if c = e then expectChars rest es else none
  | [], _ :: _ => none

mutual

def parseJ : Nat → List Char → Option (Json × List Char)
  | 0, _ => none
  | fuel + 1, cs =>
    match cs with
    | [] => none
    | c :: rest =>
      if c = quoteChar then
        match parseStringBody rest [] with
        | none => none
        | some (s, rest2) => some (.str s, rest2)
      else if c = '[' then parseArr fuel rest
      else if c = lbraceChar then parseObj fuel rest
      else if c = '-' then
        match parseNatPart rest with
        | none => none
        | some (n, rest2) => some (.num (-(n : Int)), rest2)
      else if isDigitChar c then
        match parseNatPart (c :: rest) with
        | none => none
        | some (n, rest2) => some (.num (n : Int), rest2)
      else if c = 'n' then
        match expectChars rest ['u', 'l', 'l'] with
        | none => none
        | some rest2 => some (.null, rest2)
      else if c = 't' then
        match expectChars rest ['r', 'u', 'e'] with
        | none => none
        | some rest2 => some (.bool true, rest2)
      else if c = 'f' then
        match expectChars rest ['a', 'l', 's', 'e'] with
        | none => none
        | some rest2 => some (.bool false, rest2)
      else none

def parseArr : Nat → List Char → Option (Json × List Char)
  | 0, _ => none
  | fuel + 1, cs =>
    match cs with
    | [] => none
    | c :: _ =>
      if c = ']' then some (.arr [], cs.tail)
      else
        match parseJ fuel cs with
        | none => none
        | some (x, rest2) =>
          match parseArrTail fuel rest2 with
          | none => none
          | some (xs, rest3) => some (.arr (x :: xs), rest3)

def parseArrTail : Nat → List Char → Option (List Json × List Char)
  | 0, _ => none
  | fuel + 1, cs =>
    match cs with
    | [] => none
    | c :: rest =>
      if c = ']' then some ([], rest)
      else if c = ',' then
        match parseJ fuel rest with
        | none => none
        | some (x, rest2) =>
          match parseArrTail fuel rest2 with
          | none => none
          | some (xs, rest3) => some (x :: xs, rest3)
      else none

def parseObj : Nat → List Char → Option (Json × List Char)
  | 0, _ => none
  | fuel + 1, cs =>
    match cs with
    | [] => none
    | c :: _ =>
      if c = rbraceChar then some (.obj [], cs.tail)
      else
        match parseField fuel cs with
        | none => none
        | some (kv, rest2) =>
          match parseObjTail fuel rest2 with
          | none => none
          | some (fs, rest3) => some (.obj (kv :: fs), rest3)

def parseField : Nat → List Char → Option ((String × Json) × List Char)
  | 0, _ => none
  | fuel + 1, cs =>
    match cs with
    | [] => none
    | c :: rest =>
      if c = quoteChar then
        match parseStringBody rest [] with
        | none => none
        | some (k, rest2) =>
          match rest2 with
          | [] => none
          | c2 :: rest3 =>
            if c2 = ':' then
              match parseJ fuel rest3 with
              | none => none
              | some (v, rest4) => some ((k, v), rest4)
            else none
      else none

def parseObjTail : Nat → List Char → Option (List (String × Json) × List Char)
  | 0, _ => none
  | fuel + 1, cs =>
    match cs with
    | [] => none
    | c :: rest =>
      if c = rbraceChar then some ([], rest)
      else if c = ',' then
        match parseField fuel rest with
        | none => none
        | some (kv, rest2) =>
          match parseObjTail fuel rest2 with
          | none => none
          | some (fs, rest3) => some (kv :: fs, rest3)
      else none

end

/-! ## Order facts for the canonical field orders -/

instance codePointLe.total : IsTotal String codePointLe :=
  ⟨fun s t => (lexCmp_lawful charCmp_lawful).le_total s.data t.data⟩

instance codePointLe.trans : IsTrans String codePointLe :=
  ⟨fun _ _ _ hab hbd => (lexCmp_lawful charCmp_lawful).le_trans hab hbd⟩

theorem codePointLe_antisymm {s t : String} (h1 : codePointLe s t)
    (h2 : codePointLe t s) : s = t := by
  cases hc : lexCmp charCmp s.data t.data with
  | gt => exact absurd hc h1
  | eq => exact string_data_eq ((lexCmp_eq_iff_of_inj charCmp_eq_iff _ _).mp hc)
  | lt =>
    exfalso
    apply h2
    have hs := (lexCmp_lawful charCmp_lawful).swap_eq s.data t.data
    rw [hc] at hs
    cases hg : lexCmp charCmp t.data s.data <;> rw [hg] at hs <;> first | rfl | cases hs

instance fieldLocaleLe.total : IsTotal (String × Json) fieldLocaleLe :=
  ⟨fun a b => IsTotal.total (r := localeLe) a.1 b.1⟩

instance fieldLocaleLe.transInst : IsTrans (String × Json) fieldLocaleLe :=
  ⟨fun _ _ _ hab hbd => IsTrans.trans (r := localeLe) _ _ _ hab hbd⟩

instance fieldCpLe.total : IsTotal (String × Json) fieldCpLe :=
  ⟨fun a b => IsTotal.total (r := codePointLe) a.1 b.1⟩

instance fieldCpLe.transInst : IsTrans (String × Json) fieldCpLe :=
  ⟨fun _ _ _ hab hbd => IsTrans.trans (r := codePointLe) _ _ _ hab hbd⟩

/-! ## String-literal printing inverts through the reader -/

/-- `Char.ofNat` at a valid code point reads back its argument. -/
theorem charToNat_ofNat {n : Nat} (h : n.isValidChar) : (Char.ofNat n).toNat = n := by
  unfold Char.ofNat
  rw [dif_pos h]
  rfl

/-- `hexVal` inverts `hexDigitChar` on nibbles. -/
theorem hexVal_hexDigitChar {m : Nat} (h : m < 16) : hexVal (hexDigitChar m) = some m := by
  interval_cases m <;> decide

theorem parseStringBody_closeQuote (rest acc : List Char) :
    parseStringBody (quoteChar :: rest) acc = some (String.mk acc.reverse, rest) := by
  conv_lhs => rw [parseStringBody.eq_def]
  simp

theorem parseStringBody_escQuote (rest acc : List Char) :
    parseStringBody (backslashChar :: quoteChar :: rest) acc =
      parseStringBody rest (quoteChar :: acc) := by
  conv_lhs => rw [parseStringBody.eq_def]
  simp +decide

theorem parseStringBody_escBackslash (rest acc : List Char) :
    parseStringBody (backslashChar :: backslashChar :: rest) acc =
      parseStringBody rest (backslashChar :: acc) := by
  conv_lhs => rw [parseStringBody.eq_def]
  simp +decide

theorem parseStringBody_escB (rest acc : List Char) :
    parseStringBody (backslashChar :: 'b' :: rest) acc =
      parseStringBody rest (Char.ofNat 8 :: acc) := by
  conv_lhs => rw [parseStringBody.eq_def]
  simp +decide

theorem parseStringBody_escT (rest acc : List Char) :
    parseStringBody (backslashChar :: 't' :: rest) acc =
      parseStringBody rest (Char.ofNat 9 :: acc) := by
  conv_lhs => rw [parseStringBody.eq_def]
  simp +decide

theorem parseStringBody_escN (rest acc : List Char) :
    parseStringBody (backslashChar :: 'n' :: rest) acc =
      parseStringBody rest (Char.ofNat 10 :: acc) := by
  conv_lhs => rw [parseStringBody.eq_def]
  simp +decide

theorem parseStringBody_escF (rest acc : List Char) :
    parseStringBody (backslashChar :: 'f' :: rest) acc =
      parseStringBody rest (Char.ofNat 12 :: acc) := by
  conv_lhs => rw [parseStringBody.eq_def]
  simp +decide

theorem parseStringBody_escR (rest acc : List Char) :
    parseStringBody (backslashChar :: 'r' :: rest) acc =
      parseStringBody rest (Char.ofNat 13 :: acc) := by
  conv_lhs => rw [parseStringBody.eq_def]
  simp +decide

theorem parseStringBody_escU (h1 h2 h3 h4 : Char) (v1 v2 v3 v4 : Nat)
    (rest acc : List Char) (e1 : hexVal h1 = some v1) (e2 : hexVal h2 = some v2)
    (e3 : hexVal h3 = some v3) (e4 : hexVal h4 = some v4) :
    parseStringBody (backslashChar :: 'u' :: h1 :: h2 :: h3 :: h4 :: rest) acc =
      parseStringBody rest
        (Char.ofNat (((v1 * 16 + v2) * 16 + v3) * 16 + v4) :: acc) := by
  conv_lhs => rw [parseStringBody.eq_def]
  simp +decide [e1, e2, e3, e4]

theorem parseStringBody_raw (c : Char) (rest acc : List Char)
    (h1 : c ≠ quoteChar) (h2 : c ≠ backslashChar) :
    parseStringBody (c :: rest) acc = parseStringBody rest (c :: acc) := by
  conv_lhs => rw [parseStringBody.eq_def]
  simp [h1, h2]

/-- Reading back an escaped string body: the closing quote returns the
accumulated characters followed by the body, and the rest of the input. -/
theorem parseStringBody_escape :
    ∀ (cs acc rest : List Char),
      parseStringBody (escapeChars cs ++ quoteChar :: rest) acc =
        some (String.mk (acc.reverse ++ cs), rest) := by
  intro cs
  induction cs with
  | nil =>
    intro acc rest
    show parseStringBody (quoteChar :: rest) acc = _
    rw [parseStringBody_closeQuote]
    simp
  | cons c cs ih =>
    intro acc rest
    show parseStringBody ((escapeChar c ++ escapeChars cs) ++ quoteChar :: rest) acc = _
    by_cases h1 : c = quoteChar
    · subst h1
      rw [show escapeChar quoteChar = [backslashChar, quoteChar] from by decide]
      simp only [List.cons_append, List.nil_append]
      rw [parseStringBody_escQuote, ih]
      simp
    · by_cases h2 : c = backslashChar
      · subst h2
        rw [show escapeChar backslashChar = [backslashChar, backslashChar] from by decide]
        simp only [List.cons_append, List.nil_append]
        rw [parseStringBody_escBackslash, ih]
        simp
      · by_cases h3 : c = Char.ofNat 8
        · subst h3
          rw [show escapeChar (Char.ofNat 8) = [backslashChar, 'b'] from by decide]
          simp only [List.cons_append, List.nil_append]
          rw [parseStringBody_escB, ih]
          simp
        · by_cases h4 : c = Char.ofNat 9
          · subst h4
            rw [show escapeChar (Char.ofNat 9) = [backslashChar, 't'] from by decide]
            simp only [List.cons_append, List.nil_append]
            rw [parseStringBody_escT, ih]
            simp
          · by_cases h5 : c = Char.ofNat 10
            · subst h5
              rw [show escapeChar (Char.ofNat 10) = [backslashChar, 'n'] from by decide]
              simp only [List.cons_append, List.nil_append]
              rw [parseStringBody_escN, ih]
              simp
            · by_cases h6 : c = Char.ofNat 12
              · subst h6
                rw [show escapeChar (Char.ofNat 12) = [backslashChar, 'f'] from by decide]
                simp only [List.cons_append, List.nil_append]
                rw [parseStringBody_escF, ih]
                simp
              · by_cases h7 : c = Char.ofNat 13
                · subst h7
                  rw [show escapeChar (Char.ofNat 13) = [backslashChar, 'r'] from by decide]
                  simp only [List.cons_append, List.nil_append]
                  rw [parseStringBody_escR, ih]
                  simp
                · by_cases h8 : c.toNat < 32
                  · have hesc : escapeChar c =
                        [backslashChar, 'u', '0', '0',
                          hexDigitChar (c.toNat / 16), hexDigitChar (c.toNat % 16)] := by
                      unfold escapeChar
                      rw [if_neg h1, if_neg h2, if_neg h3, if_neg h4, if_neg h5, if_neg h6,
                        if_neg h7, if_pos h8]
                    rw [hesc]
                    simp only [List.cons_append, List.nil_append]
                    rw [parseStringBody_escU '0' '0' (hexDigitChar (c.toNat / 16))
                      (hexDigitChar (c.toNat % 16)) 0 0 (c.toNat / 16) (c.toNat % 16) _ _
                      (by decide) (by decide)
                      (hexVal_hexDigitChar (by omega))
                      (hexVal_hexDigitChar (by omega))]
                    have harith : ((0 * 16 + 0) * 16 + c.toNat / 16) * 16 + c.toNat % 16
                        = c.toNat := by omega
                    rw [harith, Char.ofNat_toNat, ih]
                    simp
                  · have hesc : escapeChar c = [c] := by
                      unfold escapeChar
                      rw [if_neg h1, if_neg h2, if_neg h3, if_neg h4, if_neg h5, if_neg h6,
                        if_neg h7, if_neg h8]
                    rw [hesc]
                    simp only [List.cons_append, List.nil_append]
                    rw [parseStringBody_raw c _ _ h1 h2, ih]
                    simp

/-! ## Decimal printing inverts through the reader -/

theorem digitChar_toNat {n : Nat} (h : n < 10) : (digitChar n).toNat = 48 + n := by
  interval_cases n <;> decide

theorem isDigitChar_digitChar {n : Nat} (h : n < 10) :
    isDigitChar (digitChar n) = true := by
  interval_cases n <;> decide

theorem digitsToNat_append_digit (ds : List Char) (c : Char) :
    digitsToNat (ds ++ [c]) = digitsToNat ds * 10 + (c.toNat - 48) := by
  simp [digitsToNat, List.foldl_append]

/-- The fuelled digit printer emits a non-empty run of decimal digits whose
value is its argument. -/
theorem natCharsAux_spec :
    ∀ (fuel n : Nat), n < fuel →
      natCharsAux fuel n ≠ [] ∧ (∀ c ∈ natCharsAux fuel n, isDigitChar c = true) ∧
        digitsToNat (natCharsAux fuel n) = n := by
  intro fuel
  induction fuel with
  | zero => intro n h; omega
  | succ fuel ih =>
    intro n hn
    by_cases h10 : n < 10
    · have hout : natCharsAux (fuel + 1) n = [digitChar n] := by
        rw [natCharsAux, if_pos h10]
      rw [hout]
      refine ⟨by simp, ?_, ?_⟩
      · intro c hc
        rw [List.mem_singleton] at hc
        rw [hc]
        exact isDigitChar_digitChar h10
      · show digitsToNat ([] ++ [digitChar n]) = n
        rw [digitsToNat_append_digit, digitChar_toNat h10]
        simp [digitsToNat]
    · have hout : natCharsAux (fuel + 1) n =
          natCharsAux fuel (n / 10) ++ [digitChar (n % 10)] := by
        rw [natCharsAux, if_neg h10]
      obtain ⟨hne, hdig, hval⟩ := ih (n / 10) (by omega)
      rw [hout]
      refine ⟨by simp, ?_, ?_⟩
      · intro c hc
        rw [List.mem_append, List.mem_singleton] at hc
        rcases hc with hc | hc
        · exact hdig c hc
        · rw [hc]
          exact isDigitChar_digitChar (by omega)
      · rw [digitsToNat_append_digit, hval, digitChar_toNat (by omega)]
        omega

/-- The digits of `n`: non-empty, all decimal, valued `n`. -/
theorem natToChars_spec (n : Nat) :
    natToChars n ≠ [] ∧ (∀ c ∈ natToChars n, isDigitChar c = true) ∧
      digitsToNat (natToChars n) = n :=
  natCharsAux_spec (n + 1) n (Nat.lt_succ_self n)

theorem takeWhile_append_stop (p : Char → Bool) :
    ∀ (l rest : List Char), (∀ c ∈ l, p c = true) →
      (∀ c, rest.head? = some c → p c = false) →
      (l ++ rest).takeWhile p = l ∧ (l ++ rest).dropWhile p = rest := by
  intro l
  induction l with
  | nil =>
    intro rest _ h2
    cases rest with
    | nil => exact ⟨rfl, rfl⟩
    | cons c r =>
      simp only [List.nil_append, List.takeWhile_cons, List.dropWhile_cons, h2 c rfl]
      exact ⟨rfl, rfl⟩
  | cons c l ihl =>
    intro rest h1 h2
    have hc := h1 c (List.mem_cons_self c l)
    obtain ⟨ht, hd⟩ := ihl rest (fun d hd => h1 d (List.mem_cons_of_mem _ hd)) h2
    simp only [List.cons_append, List.takeWhile_cons, List.dropWhile_cons, hc, ht, hd]
    exact ⟨rfl, rfl⟩

/-- Reading back a printed natural number followed by a non-digit. -/
theorem parseNatPart_natToChars (n : Nat) (rest : List Char)
    (hrest : ∀ c, rest.head? = some c → isDigitChar c = false) :
    parseNatPart (natToChars n ++ rest) = some (n, rest) := by
  obtain ⟨hne, hdig, hval⟩ := natToChars_spec n
  obtain ⟨ht, hd⟩ := takeWhile_append_stop isDigitChar (natToChars n) rest hdig hrest
  have hemp : (natToChars n).isEmpty = false := by
    cases hl : natToChars n with
    | nil => exact absurd hl hne
    | cons c cs => rfl
  show (if ((natToChars n ++ rest).takeWhile isDigitChar).isEmpty then none
    else some (digitsToNat ((natToChars n ++ rest).takeWhile isDigitChar),
      (natToChars n ++ rest).dropWhile isDigitChar)) = some (n, rest)
  rw [ht, hd, hemp, hval]
  rfl

/-- A decimal digit differs from every non-digit character. -/
theorem digit_ne_nondigit {c d : Char} (h : isDigitChar c = true)
    (hd : isDigitChar d = false) : c ≠ d := by
  intro he
  rw [he, hd] at h
  exact absurd h (by decide)

/-! ## Head characters and sizes of printed values -/

theorem expectChars_self : ∀ (es rest : List Char), expectChars (es ++ rest) es = some rest := by
  intro es
  induction es with
  | nil => intro rest; cases rest <;> rfl
  | cons e es ihe =>
    intro rest
    show (if e = e then expectChars (es ++ rest) es else none) = some rest
    rw [if_pos rfl, ihe]

theorem jsonSize_pos (x : Json) : 1 ≤ jsonSize x := by
  cases x <;> simp [jsonSize]

theorem itemsSize_pos (xs : List Json) : 1 ≤ itemsSize xs := by
  cases xs with
  | nil => simp [itemsSize]
  | cons x xs => simp [itemsSize]; omega

theorem fieldsSize_pos (fs : List (String × Json)) : 1 ≤ fieldsSize fs := by
  cases fs with
  | nil => simp [fieldsSize]
  | cons kv fs => cases kv; simp [fieldsSize]; omega

theorem jsonSize_lt_of_mem_items {y : Json} :
    ∀ {xs : List Json}, y ∈ xs → jsonSize y < itemsSize xs := by
  intro xs
  induction xs with
  | nil => intro h; cases h
  | cons x xs ihx =>
    intro h
    rcases List.mem_cons.mp h with rfl | h
    · simp [itemsSize]
      omega
    · have := ihx h
      simp [itemsSize]
      omega

theorem jsonSize_lt_of_mem_fields {kv : String × Json} :
    ∀ {fs : List (String × Json)}, kv ∈ fs → jsonSize kv.2 < fieldsSize fs := by
  intro fs
  induction fs with
  | nil => intro h; cases h
  | cons kv0 fs ihf =>
    intro h
    rcases List.mem_cons.mp h with rfl | h
    · cases kv
      simp [fieldsSize]
      omega
    · have := ihf h
      cases kv0
      simp [fieldsSize]
      omega

theorem itemsWf_mem {y : Json} :
    ∀ {xs : List Json}, itemsWf xs = true → y ∈ xs → jsonWf y = true := by
  intro xs
  induction xs with
  | nil => intro _ h; cases h
  | cons x xs ihx =>
    intro hwf h
    have hwf2 : jsonWf x = true ∧ itemsWf xs = true := by
      have : (jsonWf x && itemsWf xs) = true := hwf
      exact Bool.and_eq_true_iff.mp this
    rcases List.mem_cons.mp h with rfl | h
    · exact hwf2.1
    · exact ihx hwf2.2 h

theorem fieldsWf_mem {kv : String × Json} :
    ∀ {fs : List (String × Json)}, fieldsWf fs = true → kv ∈ fs → jsonWf kv.2 = true := by
  intro fs
  induction fs with
  | nil => intro _ h; cases h
  | cons kv0 fs ihf =>
    intro hwf h
    cases kv0 with
    | mk k0 v0 =>
      have hwf2 : jsonWf v0 = true ∧ fieldsWf fs = true := by
        have : (jsonWf v0 && fieldsWf fs) = true := hwf
        exact Bool.and_eq_true_iff.mp this
      rcases List.mem_cons.mp h with rfl | h
      · exact hwf2.1
      · exact ihf hwf2.2 h

/-- A printed value is never empty and never starts with a structural
delimiter (`]`, `,`, `:` or a closing brace). -/
theorem printJson_head (x : Json) :
    printJson x ≠ [] ∧ ∀ c, (printJson x).head? = some c →
      (c ≠ ']' ∧ c ≠ ',' ∧ c ≠ rbraceChar ∧ c ≠ ':') := by
  cases x with
  | null => exact ⟨by simp [printJson], by intro c hc; simp [printJson] at hc; subst hc; refine ⟨by decide, by decide, by decide, by decide⟩⟩
  | bool b =>
    cases b with
    | true => exact ⟨by simp [printJson], by intro c hc; simp [printJson] at hc; subst hc; refine ⟨by decide, by decide, by decide, by decide⟩⟩
    | false => exact ⟨by simp [printJson], by intro c hc; simp [printJson] at hc; subst hc; refine ⟨by decide, by decide, by decide, by decide⟩⟩
  | str s =>
    refine ⟨by simp [printJson, printStringChars], ?_⟩
    intro c hc
    simp [printJson, printStringChars] at hc
    subst hc
    refine ⟨by decide, by decide, by decide, by decide⟩
  | arr items =>
    refine ⟨by simp [printJson], ?_⟩
    intro c hc
    simp [printJson] at hc
    subst hc
    refine ⟨by decide, by decide, by decide, by decide⟩
  | obj fields =>
    refine ⟨by simp [printJson], ?_⟩
    intro c hc
    simp [printJson] at hc
    subst hc
    refine ⟨by decide, by decide, by decide, by decide⟩
  | num n =>
    have hnum : printJson (Json.num n) = intToChars n := rfl
    rw [hnum]
    unfold intToChars
    by_cases hneg : n < 0
    · rw [if_pos hneg]
      refine ⟨by simp, ?_⟩
      intro c hc
      simp at hc
      subst hc
      refine ⟨by decide, by decide, by decide, by decide⟩
    · rw [if_neg hneg]
      obtain ⟨hne, hdig, -⟩ := natToChars_spec n.toNat
      refine ⟨hne, ?_⟩
      intro c hc
      have hcm : c ∈ natToChars n.toNat := by
        cases hl : natToChars n.toNat with
        | nil => exact absurd hl hne
        | cons d ds =>
          rw [hl] at hc
          simp at hc
          subst hc
          simp [hl]
      have hcd := hdig c hcm
      exact ⟨digit_ne_nondigit hcd (by decide), digit_ne_nondigit hcd (by decide),
        digit_ne_nondigit hcd (by decide), digit_ne_nondigit hcd (by decide)⟩

/-- After an array element the input continues with `,` or `]`, never a
digit. -/
theorem itemsTail_head_nondigit (xs : List Json) (rest : List Char) :
    ∀ c, (printItemsTail xs ++ ']' :: rest).head? = some c → isDigitChar c = false := by
  intro c hc
  cases xs with
  | nil => simp [printItemsTail] at hc; subst hc; decide
  | cons x xs => simp [printItemsTail] at hc; subst hc; decide

/-- After an object field the input continues with `,` or a closing brace,
never a digit. -/
theorem fieldsTail_head_nondigit (fs : List (String × Json)) (rest : List Char) :
    ∀ c, (printFieldsTail fs ++ rbraceChar :: rest).head? = some c → isDigitChar c = false := by
  intro c hc
  cases fs with
  | nil => simp [printFieldsTail] at hc; subst hc; decide
  | cons kv fs =>
    cases kv
    simp [printFieldsTail] at hc
    subst hc
    decide

/-- Parsing a printed JSON value returns the value and the unconsumed rest of
the input, for every parser of the mutual family, with fuel bounded below by
the value's size; a printed number must not be followed directly by a digit. -/
theorem parse_print_all : ∀ fuel : Nat,
    (∀ x rest, jsonSize x ≤ fuel →
      (∀ c, rest.head? = some c → isDigitChar c = false) →
      parseJ fuel (printJson x ++ rest) = some (x, rest)) ∧
    (∀ xs rest, itemsSize xs ≤ fuel →
      parseArr fuel (printItems xs ++ ']' :: rest) = some (Json.arr xs, rest)) ∧
    (∀ xs rest, itemsSize xs ≤ fuel →
      parseArrTail fuel (printItemsTail xs ++ ']' :: rest) = some (xs, rest)) ∧
    (∀ fs rest, fieldsSize fs ≤ fuel →
      parseObj fuel (printFields fs ++ rbraceChar :: rest) = some (Json.obj fs, rest)) ∧
    (∀ k v rest, jsonSize v < fuel →
      (∀ c, rest.head? = some c → isDigitChar c = false) →
      parseField fuel (printStringChars k ++ ':' :: (printJson v ++ rest)) =
        some ((k, v), rest)) ∧
    (∀ fs rest, fieldsSize fs ≤ fuel →
      parseObjTail fuel (printFieldsTail fs ++ rbraceChar :: rest) = some (fs, rest)) := by
  intro fuel
  induction fuel with
  | zero =>
    refine ⟨?_, ?_, ?_, ?_, ?_, ?_⟩
    · intro x _ h _; have := jsonSize_pos x; omega
    · intro xs _ h; have := itemsSize_pos xs; omega
    · intro xs _ h; have := itemsSize_pos xs; omega
    · intro fs _ h; have := fieldsSize_pos fs; omega
    · intro _ v _ h _; omega
    · intro fs _ h; have := fieldsSize_pos fs; omega
  | succ fuel ih =>
    obtain ⟨ihJ, ihA, ihAT, ihO, ihF, ihOT⟩ := ih
    refine ⟨?_, ?_, ?_, ?_, ?_, ?_⟩
    · -- parseJ
      intro x rest hsz hrest
      cases x with
      | null =>
        show parseJ (fuel + 1) ('n' :: 'u' :: 'l' :: 'l' :: rest) = some (Json.null, rest)
        have he : expectChars ('u' :: 'l' :: 'l' :: rest) ['u', 'l', 'l'] = some rest :=
          expectChars_self ['u', 'l', 'l'] rest
        conv_lhs => rw [parseJ.eq_def]
        simp +decide [he]
      | bool b =>
        cases b with
        | true =>
          show parseJ (fuel + 1) ('t' :: 'r' :: 'u' :: 'e' :: rest) =
            some (Json.bool true, rest)
          have he : expectChars ('r' :: 'u' :: 'e' :: rest) ['r', 'u', 'e'] = some rest :=
            expectChars_self ['r', 'u', 'e'] rest
          conv_lhs => rw [parseJ.eq_def]
          simp +decide [he]
        | false =>
          show parseJ (fuel + 1) ('f' :: 'a' :: 'l' :: 's' :: 'e' :: rest) =
            some (Json.bool false, rest)
          have he : expectChars ('a' :: 'l' :: 's' :: 'e' :: rest) ['a', 'l', 's', 'e'] =
              some rest :=
            expectChars_self ['a', 'l', 's', 'e'] rest
          conv_lhs => rw [parseJ.eq_def]
          simp +decide [he]
      | num n =>
        by_cases hneg : n < 0
        · have hin : printJson (Json.num n) ++ rest =
              '-' :: (natToChars n.natAbs ++ rest) := by
            show intToChars n ++ rest = _
            unfold intToChars
            rw [if_pos hneg]
            simp
          rw [hin]
          have hp := parseNatPart_natToChars n.natAbs rest hrest
          conv_lhs => rw [parseJ.eq_def]
          simp +decide [hp]
          rw [abs_of_nonpos (show n ≤ 0 by omega)]
          omega
        · obtain ⟨hne, hdig, -⟩ := natToChars_spec n.toNat
          rcases hl : natToChars n.toNat with _ | ⟨c, pcs⟩
          · exact absurd hl hne
          have hc : isDigitChar c = true := hdig c (by rw [hl]; exact List.mem_cons_self c pcs)
          have hin : printJson (Json.num n) ++ rest = c :: (pcs ++ rest) := by
            show intToChars n ++ rest = _
            unfold intToChars
            rw [if_neg hneg, hl]
            simp
          rw [hin]
          have hp : parseNatPart (c :: (pcs ++ rest)) = some (n.toNat, rest) := by
            have harg : c :: (pcs ++ rest) = natToChars n.toNat ++ rest := by
              rw [hl]
              simp
            rw [harg]
            exact parseNatPart_natToChars n.toNat rest hrest
          have hneq : (n.toNat : Int) = n := Int.toNat_of_nonneg (by omega)
          conv_lhs => rw [parseJ.eq_def]
          simp [digit_ne_nondigit hc (show isDigitChar quoteChar = false by decide),
            digit_ne_nondigit hc (show isDigitChar '[' = false by decide),
            digit_ne_nondigit hc (show isDigitChar lbraceChar = false by decide),
            digit_ne_nondigit hc (show isDigitChar '-' = false by decide),
            hc, hp, hneq]
      | str s =>
        have hin : printJson (Json.str s) ++ rest =
            quoteChar :: (escapeChars s.data ++ quoteChar :: rest) := by
          show printStringChars s ++ rest = _
          simp [printStringChars]
        rw [hin]
        have hsb := parseStringBody_escape s.data [] rest
        have hmk : String.mk (List.reverse ([] : List Char) ++ s.data) = s :=
          string_data_eq (by simp)
        conv_lhs => rw [parseJ.eq_def]
        simp [hsb, hmk]
      | arr items =>
        have hin : printJson (Json.arr items) ++ rest =
            '[' :: (printItems items ++ ']' :: rest) := by
          show '[' :: printItems items ++ [']'] ++ rest = _
          simp
        rw [hin]
        have hsz2 : itemsSize items ≤ fuel := by
          have h2 : jsonSize (Json.arr items) = 1 + itemsSize items := rfl
          omega
        have hA := ihA items rest hsz2
        conv_lhs => rw [parseJ.eq_def]
        simp +decide [hA]
      | obj fields =>
        have hin : printJson (Json.obj fields) ++ rest =
            lbraceChar :: (printFields fields ++ rbraceChar :: rest) := by
          show lbraceChar :: printFields fields ++ [rbraceChar] ++ rest = _
          simp
        rw [hin]
        have hsz2 : fieldsSize fields ≤ fuel := by
          have h2 : jsonSize (Json.obj fields) = 1 + fieldsSize fields := rfl
          omega
        have hO := ihO fields rest hsz2
        conv_lhs => rw [parseJ.eq_def]
        simp +decide [hO]
    · -- parseArr
      intro xs rest hsz
      cases xs with
      | nil =>
        show parseArr (fuel + 1) (']' :: rest) = some (Json.arr [], rest)
        conv_lhs => rw [parseArr.eq_def]
        simp +decide
      | cons x xs =>
        obtain ⟨hne, hhd⟩ := printJson_head x
        rcases hl : printJson x with _ | ⟨c, pcs⟩
        · exact absurd hl hne
        have hcne : c ≠ ']' := (hhd c (by rw [hl]; rfl)).1
        have hszx : jsonSize x ≤ fuel := by
          have h2 : itemsSize (x :: xs) = 1 + jsonSize x + itemsSize xs := rfl
          have := itemsSize_pos xs
          omega
        have hszxs : itemsSize xs ≤ fuel := by
          have h2 : itemsSize (x :: xs) = 1 + jsonSize x + itemsSize xs := rfl
          have := jsonSize_pos x
          omega
        have hin : printItems (x :: xs) ++ ']' :: rest =
            c :: (pcs ++ (printItemsTail xs ++ ']' :: rest)) := by
          show (printJson x ++ printItemsTail xs) ++ ']' :: rest = _
          rw [hl]
          simp
        rw [hin]
        have hJ : parseJ fuel (c :: (pcs ++ (printItemsTail xs ++ ']' :: rest))) =
            some (x, printItemsTail xs ++ ']' :: rest) := by
          have harg : c :: (pcs ++ (printItemsTail xs ++ ']' :: rest)) =
              printJson x ++ (printItemsTail xs ++ ']' :: rest) := by
            rw [hl]
            simp
          rw [harg]
          exact ihJ x _ hszx (itemsTail_head_nondigit xs rest)
        have hT := ihAT xs rest hszxs
        conv_lhs => rw [parseArr.eq_def]
        simp [hcne, hJ, hT]
    · -- parseArrTail
      intro xs rest hsz
      cases xs with
      | nil =>
        show parseArrTail (fuel + 1) (']' :: rest) = some ([], rest)
        conv_lhs => rw [parseArrTail.eq_def]
        simp +decide
      | cons x xs =>
        have hszx : jsonSize x ≤ fuel := by
          have h2 : itemsSize (x :: xs) = 1 + jsonSize x + itemsSize xs := rfl
          have := itemsSize_pos xs
          omega
        have hszxs : itemsSize xs ≤ fuel := by
          have h2 : itemsSize (x :: xs) = 1 + jsonSize x + itemsSize xs := rfl
          have := jsonSize_pos x
          omega
        have hin : printItemsTail (x :: xs) ++ ']' :: rest =
            ',' :: (printJson x ++ (printItemsTail xs ++ ']' :: rest)) := by
          show (',' :: (printJson x ++ printItemsTail xs)) ++ ']' :: rest = _
          simp
        rw [hin]
        have hJ := ihJ x (printItemsTail xs ++ ']' :: rest) hszx
          (itemsTail_head_nondigit xs rest)
        have hT := ihAT xs rest hszxs
        conv_lhs => rw [parseArrTail.eq_def]
        simp +decide [hJ, hT]
    · -- parseObj
      intro fs rest hsz
      cases fs with
      | nil =>
        show parseObj (fuel + 1) (rbraceChar :: rest) = some (Json.obj [], rest)
        conv_lhs => rw [parseObj.eq_def]
        simp +decide
      | cons kv fs =>
        obtain ⟨k, v⟩ := kv
        have hszv : jsonSize v < fuel := by
          have h2 : fieldsSize ((k, v) :: fs) = 1 + jsonSize v + fieldsSize fs := rfl
          have := fieldsSize_pos fs
          omega
        have hszfs : fieldsSize fs ≤ fuel := by
          have h2 : fieldsSize ((k, v) :: fs) = 1 + jsonSize v + fieldsSize fs := rfl
          have := jsonSize_pos v
          omega
        have hin : printFields ((k, v) :: fs) ++ rbraceChar :: rest =
            quoteChar :: (escapeChars k.data ++
              quoteChar :: ':' :: (printJson v ++ (printFieldsTail fs ++ rbraceChar :: rest))) := by
          show ((printStringChars k ++ ':' :: printJson v) ++ printFieldsTail fs) ++
            rbraceChar :: rest = _
          simp [printStringChars]
        rw [hin]
        have hF : parseField fuel (quoteChar :: (escapeChars k.data ++
            quoteChar :: ':' :: (printJson v ++ (printFieldsTail fs ++ rbraceChar :: rest)))) =
            some ((k, v), printFieldsTail fs ++ rbraceChar :: rest) := by
          have harg : quoteChar :: (escapeChars k.data ++
              quoteChar :: ':' :: (printJson v ++ (printFieldsTail fs ++ rbraceChar :: rest))) =
              printStringChars k ++
                ':' :: (printJson v ++ (printFieldsTail fs ++ rbraceChar :: rest)) := by
            simp [printStringChars]
          rw [harg]
          exact ihF k v _ hszv (fieldsTail_head_nondigit fs rest)
        have hT := ihOT fs rest hszfs
        conv_lhs => rw [parseObj.eq_def]
        simp +decide [hF, hT]
    · -- parseField
      intro k v rest hszv hrest
      have hin : printStringChars k ++ ':' :: (printJson v ++ rest) =
          quoteChar :: (escapeChars k.data ++
            quoteChar :: (':' :: (printJson v ++ rest))) := by
        simp [printStringChars]
      rw [hin]
      have hsb := parseStringBody_escape k.data [] (':' :: (printJson v ++ rest))
      have hmk : String.mk (List.reverse ([] : List Char) ++ k.data) = k :=
        string_data_eq (by simp)
      have hJ := ihJ v rest (by omega) hrest
      conv_lhs => rw [parseField.eq_def]
      simp +decide [hsb, hmk, hJ]
    · -- parseObjTail
      intro fs rest hsz
      cases fs with
      | nil =>
        show parseObjTail (fuel + 1) (rbraceChar :: rest) = some ([], rest)
        conv_lhs => rw [parseObjTail.eq_def]
        simp +decide
      | cons kv fs =>
        obtain ⟨k, v⟩ := kv
        have hszv : jsonSize v < fuel := by
          have h2 : fieldsSize ((k, v) :: fs) = 1 + jsonSize v + fieldsSize fs := rfl
          have := fieldsSize_pos fs
          omega
        have hszfs : fieldsSize fs ≤ fuel := by
          have h2 : fieldsSize ((k, v) :: fs) = 1 + jsonSize v + fieldsSize fs := rfl
          have := jsonSize_pos v
          omega
        have hin : printFieldsTail ((k, v) :: fs) ++ rbraceChar :: rest =
            ',' :: (printStringChars k ++
              ':' :: (printJson v ++ (printFieldsTail fs ++ rbraceChar :: rest))) := by
          show (',' :: ((printStringChars k ++ ':' :: printJson v) ++ printFieldsTail fs)) ++
            rbraceChar :: rest = _
          simp
        rw [hin]
        have hF := ihF k v (printFieldsTail fs ++ rbraceChar :: rest) hszv
          (fieldsTail_head_nondigit fs rest)
        have hT := ihOT fs rest hszfs
        conv_lhs => rw [parseObjTail.eq_def]
        simp +decide [hF, hT]

/-- The serialisation is injective on JSON values. -/
theorem printJson_inj {x y : Json} (h : printJson x = printJson y) : x = y := by
  have hx := (parse_print_all (max (jsonSize x) (jsonSize y))).1 x []
    (le_max_left _ _) (by intro c hc; cases hc)
  have hy := (parse_print_all (max (jsonSize x) (jsonSize y))).1 y []
    (le_max_right _ _) (by intro c hc; cases hc)
  rw [List.append_nil] at hx hy
  rw [h, hy] at hx
  simp only [Option.some.injEq, Prod.mk.injEq, and_true] at hx
  exact hx.symm

/-! ## Canonicalisation under two key orders commutes into the finer one -/

theorem canonFields_eq_map (le : String × Json → String × Json → Prop)
    [DecidableRel le] :
    ∀ fs, canonFields le fs = fs.map (fun kv => (kv.1, canonBy le kv.2))
  | [] => rfl
  | (k, v) :: fs => by
    show (k, canonBy le v) :: canonFields le fs = _
    rw [canonFields_eq_map le fs]
    rfl

theorem canonFields_keys (le : String × Json → String × Json → Prop)
    [DecidableRel le] (fs : List (String × Json)) :
    (canonFields le fs).map Prod.fst = fs.map Prod.fst := by
  rw [canonFields_eq_map]
  rw [List.map_map]
  rfl

theorem map_orderedInsert {α : Type} (r : α → α → Prop) [DecidableRel r]
    (f : α → α) (hf : ∀ a b, r (f a) (f b) ↔ r a b) :
    ∀ (l : List α) (a), (List.orderedInsert r a l).map f =
      List.orderedInsert r (f a) (l.map f) := by
  intro l
  induction l with
  | nil => intro a; rfl
  | cons b l ihl =>
    intro a
    simp only [List.orderedInsert, List.map_cons]
    by_cases h : r a b
    · rw [if_pos h, if_pos ((hf a b).mpr h)]
      simp
    · rw [if_neg h, if_neg (fun hc => h ((hf a b).mp hc))]
      simp only [List.map_cons, ihl a]

theorem map_insertionSort {α : Type} (r : α → α → Prop) [DecidableRel r]
    (f : α → α) (hf : ∀ a b, r (f a) (f b) ↔ r a b) :
    ∀ l : List α, (List.insertionSort r l).map f = List.insertionSort r (l.map f) := by
  intro l
  induction l with
  | nil => rfl
  | cons a l ihl =>
    simp only [List.insertionSort, List.map_cons]
    rw [map_orderedInsert r f hf, ihl]

/-- Two sorted lists with the same distinct keys that are permutations of
each other are equal, for any key order that is antisymmetric on keys. -/
theorem eq_of_perm_sorted_keys {le : String × Json → String × Json → Prop}
    (hanti : ∀ a b, le a b → le b a → a.1 = b.1)
    {l₁ l₂ : List (String × Json)} (hp : l₁.Perm l₂)
    (hs1 : l₁.Sorted le) (hs2 : l₂.Sorted le)
    (hnd : (l₁.map Prod.fst).Nodup) : l₁ = l₂ := by
  have hnd2 : (l₂.map Prod.fst).Nodup := ((hp.map Prod.fst).nodup_iff).mp hnd
  have hne1 : l₁.Pairwise (fun a b : String × Json => a.1 ≠ b.1) :=
    List.pairwise_map.mp hnd
  have hne2 : l₂.Pairwise (fun a b : String × Json => a.1 ≠ b.1) :=
    List.pairwise_map.mp hnd2
  haveI : IsAntisymm (String × Json) (fun a b => le a b ∧ a.1 ≠ b.1) :=
    ⟨fun a b hab hba => absurd (hanti a b hab.1 hba.1) hab.2⟩
  exact List.eq_of_perm_of_sorted hp (hs1.and hne1) (hs2.and hne2)

/-- Canonicalising under `le2` and then under `le1` is canonicalising under
`le1`, on values whose object keys are pairwise distinct: both orders compare
only keys, and on distinct keys a sorted order is unique. -/
theorem canonBy_absorb (le1 le2 : String × Json → String × Json → Prop)
    [DecidableRel le1] [DecidableRel le2]
    [IsTotal (String × Json) le1] [IsTrans (String × Json) le1]
    (hk2 : ∀ (a b : String × Json) (v w : Json), le2 (a.1, v) (b.1, w) ↔ le2 a b)
    (hanti1 : ∀ a b, le1 a b → le1 b a → a.1 = b.1) :
    ∀ (n : Nat) (x : Json), jsonSize x ≤ n → jsonWf x = true →
      canonBy le1 (canonBy le2 x) = canonBy le1 x := by
  intro n
  induction n with
  | zero => intro x hx _; have := jsonSize_pos x; omega
  | succ n ihn =>
    intro x hx hwf
    cases x with
    | null => rfl
    | bool b => rfl
    | num m => rfl
    | str s => rfl
    | arr items =>
      show Json.arr (canonItems le1 (canonItems le2 items)) =
        Json.arr (canonItems le1 items)
      have hgen : ∀ ys : List Json, (∀ y ∈ ys, jsonSize y ≤ n ∧ jsonWf y = true) →
          canonItems le1 (canonItems le2 ys) = canonItems le1 ys := by
        intro ys
        induction ys with
        | nil => intro _; rfl
        | cons y ys ihy =>
          intro hy
          show canonBy le1 (canonBy le2 y) :: canonItems le1 (canonItems le2 ys) =
            canonBy le1 y :: canonItems le1 ys
          rw [ihn y (hy y (List.mem_cons_self y ys)).1 (hy y (List.mem_cons_self y ys)).2,
            ihy (fun z hz => hy z (List.mem_cons_of_mem y hz))]
      rw [hgen items ?_]
      intro y hy
      constructor
      · have h1 := jsonSize_lt_of_mem_items hy
        have h2 : jsonSize (Json.arr items) = 1 + itemsSize items := rfl
        omega
      · exact itemsWf_mem hwf hy
    | obj fields =>
      have hwf2 : (fields.map Prod.fst).Nodup ∧ fieldsWf fields = true := by
        have hb : (decide ((fields.map Prod.fst).Nodup) && fieldsWf fields) = true := hwf
        have hb2 := Bool.and_eq_true_iff.mp hb
        exact ⟨of_decide_eq_true hb2.1, hb2.2⟩
      show Json.obj (List.insertionSort le1 (canonFields le1
          (List.insertionSort le2 (canonFields le2 fields)))) =
        Json.obj (List.insertionSort le1 (canonFields le1 fields))
      congr 1
      rw [canonFields_eq_map le1,
        map_insertionSort le2 _ (fun a b => hk2 a b (canonBy le1 a.2) (canonBy le1 b.2)),
        ← canonFields_eq_map le1]
      have hvals : canonFields le1 (canonFields le2 fields) = canonFields le1 fields := by
        have hgenf : ∀ gs : List (String × Json),
            (∀ kv ∈ gs, jsonSize (kv.2 : Json) ≤ n ∧ jsonWf kv.2 = true) →
            canonFields le1 (canonFields le2 gs) = canonFields le1 gs := by
          intro gs
          induction gs with
          | nil => intro _; rfl
          | cons kv gs ihg =>
            obtain ⟨k, v⟩ := kv
            intro hg
            show (k, canonBy le1 (canonBy le2 v)) :: canonFields le1 (canonFields le2 gs) =
              (k, canonBy le1 v) :: canonFields le1 gs
            rw [ihn v (hg (k, v) (List.mem_cons_self _ _)).1
                (hg (k, v) (List.mem_cons_self _ _)).2,
              ihg (fun z hz => hg z (List.mem_cons_of_mem _ hz))]
        apply hgenf
        intro kv hkv
        constructor
        · have h1 := jsonSize_lt_of_mem_fields hkv
          have h2 : jsonSize (Json.obj fields) = 1 + fieldsSize fields := rfl
          omega
        · exact fieldsWf_mem hwf2.2 hkv
      rw [hvals]
      apply eq_of_perm_sorted_keys hanti1
      · exact ((List.perm_insertionSort le1 _).trans
          (List.perm_insertionSort le2 (canonFields le1 fields))).trans
          (List.perm_insertionSort le1 (canonFields le1 fields)).symm
      · exact List.sorted_insertionSort le1 _
      · exact List.sorted_insertionSort le1 _
      · have hkeys : ((canonFields le1 fields).map Prod.fst).Nodup := by
          rw [canonFields_keys le1 fields]
          exact hwf2.1
        have hperm : (List.insertionSort le1
            (List.insertionSort le2 (canonFields le1 fields))).Perm
            (canonFields le1 fields) :=
          (List.perm_insertionSort le1 _).trans
            (List.perm_insertionSort le2 (canonFields le1 fields))
        exact ((hperm.map Prod.fst).nodup_iff).mpr hkeys

/-- Code-point canonicalisation factors through the source's
`localeCompare` canonicalisation. -/
theorem canonCP_canonLoc (x : Json) (h : jsonWf x = true) :
    canonCP (canonLoc x) = canonCP x :=
  canonBy_absorb fieldCpLe fieldLocaleLe (fun _ _ _ _ => Iff.rfl)
    (fun _ _ h1 h2 => codePointLe_antisymm h1 h2) (jsonSize x) x le_rfl h

/-- `localeCompare` canonicalisation factors through code-point
canonicalisation. -/
theorem canonLoc_canonCP (x : Json) (h : jsonWf x = true) :
    canonLoc (canonCP x) = canonLoc x :=
  canonBy_absorb fieldLocaleLe fieldCpLe (fun _ _ _ _ => Iff.rfl)
    (fun _ _ h1 h2 => localeLe_antisymm h1 h2) (jsonSize x) x le_rfl h

/-! ## Claim C4 -/

/-- C4: for every method, path and pair of JSON bodies whose object keys are
duplicate-free, `buildRequestFingerprint` produces equal fingerprints exactly
when the bodies are structurally equal as JSON values — equal after putting
every object's keys in canonical order (`canonCP`); in particular the
fingerprint is invariant under reordering of keys within objects.  The
sha256-digest step is injectivity-abstracted: the fingerprint stands for the
canonical material being digested. -/
theorem fingerprint_eq_iff_structural (method path : String) (x y : Json)
    (hx : jsonWf x = true) (hy : jsonWf y = true) :
    buildRequestFingerprint method path x = buildRequestFingerprint method path y ↔
      canonCP x = canonCP y := by
  constructor
  · intro h
    unfold buildRequestFingerprint at h
    have h2 : stableStringify x = stableStringify y := List.append_cancel_left h
    have h3 : canonLoc x = canonLoc y := printJson_inj h2
    calc canonCP x = canonCP (canonLoc x) := (canonCP_canonLoc x hx).symm
      _ = canonCP (canonLoc y) := by rw [h3]
      _ = canonCP y := canonCP_canonLoc y hy
  · intro h
    have h3 : canonLoc x = canonLoc y := by
      calc canonLoc x = canonLoc (canonCP x) := (canonLoc_canonCP x hx).symm
        _ = canonLoc (canonCP y) := by rw [h]
        _ = canonLoc y := canonLoc_canonCP y hy
    unfold buildRequestFingerprint stableStringify
    rw [h3]

/-- C4, witness: reordering the keys of a two-field object leaves the
fingerprint unchanged. -/
theorem fingerprint_eq_iff_structural_witness :
    jsonWf (Json.obj [("b", Json.num 1), ("a", Json.null)]) = true ∧
    jsonWf (Json.obj [("a", Json.null), ("b", Json.num 1)]) = true ∧
    buildRequestFingerprint "post" "/api/wallets/mutations"
        (Json.obj [("b", Json.num 1), ("a", Json.null)]) =
      buildRequestFingerprint "post" "/api/wallets/mutations"
        (Json.obj [("a", Json.null), ("b", Json.num 1)]) :=
  ⟨by decide, by decide,
    (fingerprint_eq_iff_structural "post" "/api/wallets/mutations"
        (Json.obj [("b", Json.num 1), ("a", Json.null)])
        (Json.obj [("a", Json.null), ("b", Json.num 1)])
        (by decide) (by decide)).mpr (by rfl)⟩

/-! ## Claim C9 -/

/-- Embedding of the fingerprint step of the `requireIdempotency` middleware:
the fingerprint is built from the raw decoded request body
(`request.body ?? {}`), before the route's schema validation runs. -/
def requireIdempotencyFingerprint (method path : String) (rawBody : Option Json) :
    List Char :=
  buildRequestFingerprint method path (rawBody.getD (Json.obj []))

/-- Model of JavaScript `BigInt` applied to a string: an optional minus sign
followed by decimal digits (an empty string yields `0`; any other
non-numeric string throws). -/
def bigIntOfString (s : String) : Option Int :=
  match s.data with
  | [] => some 0
  | '-' :: ds =>
    if ds ≠ [] ∧ ds.all isDigitChar then some (-(digitsToNat ds : Int)) else none
  | ds => if ds.all isDigitChar then some (digitsToNat ds) else none

/-- Embedding of `positiveAmountSchema`: accept a JSON string or number,
convert with `BigInt`, and require the result to be strictly positive. -/
def positiveAmountSchema (v : Json) : Option Int :=
  match v with
  | .num n => if 0 < n then some n else none
  | .str s =>
    match bigIntOfString s with
    | some n => if 0 < n then some n else none
    | none => none
  | _ => none

/-- C9: the middleware fingerprints the raw decoded body before validation,
so two bodies that differ only in encoding the amount as the JSON number `1`
versus the JSON string `"1"` — which `positiveAmountSchema` maps to the same
`BigInt` value `1` — produce different fingerprints, for every method, path
and remaining fields not named `amount`. -/
theorem fingerprint_precedes_validation (method path : String)
    (fs : List (String × Json)) (hfs : "amount" ∉ fs.map Prod.fst) :
    positiveAmountSchema (Json.num 1) = some 1 ∧
    positiveAmountSchema (Json.str "1") = some 1 ∧
    requireIdempotencyFingerprint method path
        (some (Json.obj (("amount", Json.num 1) :: fs))) ≠
      requireIdempotencyFingerprint method path
        (some (Json.obj (("amount", Json.str "1") :: fs))) := by
  refine ⟨by decide, by decide, ?_⟩
  intro heq
  unfold requireIdempotencyFingerprint at heq
  simp only [Option.getD_some] at heq
  unfold buildRequestFingerprint at heq
  have h2 := List.append_cancel_left heq
  have h3 := printJson_inj h2
  have e1 : canonLoc (Json.obj (("amount", Json.num 1) :: fs)) =
      Json.obj (List.insertionSort fieldLocaleLe
        (("amount", Json.num 1) :: canonFields fieldLocaleLe fs)) := rfl
  have e2 : canonLoc (Json.obj (("amount", Json.str "1") :: fs)) =
      Json.obj (List.insertionSort fieldLocaleLe
        (("amount", Json.str "1") :: canonFields fieldLocaleLe fs)) := rfl
  rw [e1, e2] at h3
  have h4 : List.insertionSort fieldLocaleLe
      (("amount", Json.num 1) :: canonFields fieldLocaleLe fs) =
      List.insertionSort fieldLocaleLe
        (("amount", Json.str "1") :: canonFields fieldLocaleLe fs) := by
    simpa using h3
  have h5 : (("amount", Json.num 1) : String × Json) ∈ List.insertionSort fieldLocaleLe
      (("amount", Json.str "1") :: canonFields fieldLocaleLe fs) := by
    rw [← h4]
    exact (List.mem_insertionSort fieldLocaleLe).mpr (List.mem_cons_self _ _)
  have h6 : (("amount", Json.num 1) : String × Json) ∈
      ("amount", Json.str "1") :: canonFields fieldLocaleLe fs :=
    (List.mem_insertionSort fieldLocaleLe).mp h5
  rcases List.mem_cons.mp h6 with heq2 | hmem
  · simp at heq2
  · apply hfs
    have hm : (("amount", Json.num 1) : String × Json).1 ∈
        (canonFields fieldLocaleLe fs).map Prod.fst :=
      List.mem_map_of_mem Prod.fst hmem
    rw [canonFields_keys] at hm
    exact hm

/-- C9, witness: the single-field bodies with amount `1` and `"1"`. -/
theorem fingerprint_precedes_validation_witness :
    "amount" ∉ ([] : List (String × Json)).map Prod.fst ∧
    (positiveAmountSchema (Json.num 1) = some 1 ∧
     positiveAmountSchema (Json.str "1") = some 1 ∧
     requireIdempotencyFingerprint "POST" "/api/wallets/mutations"
         (some (Json.obj (("amount", Json.num 1) :: []))) ≠
       requireIdempotencyFingerprint "POST" "/api/wallets/mutations"
         (some (Json.obj (("amount", Json.str "1") :: [])))) :=
  ⟨by simp, fingerprint_precedes_validation "POST" "/api/wallets/mutations" [] (by simp)⟩

end DinoBackend
